import Mathlib

/-!
Verification of the TritonHTTP static file server (a minimal HTTP/1.1 origin
server) against its natural-language specification.

The Go sources are shallowly embedded below:
- `src/unnamed/part_000` (the request parser): `readLine`, `readRequest`,
  `parseRequestLine`, and the `Request` record;
- `src/tritonhttp/response.go`: the `Response` record, `handleGoodRequest`,
  `handleOK`, `handleBadRequest`, `handleNotFound`, `init`, and the
  response writer `Write` / `writeStatusLine` / `writeHeaders` / `writeBody`;
- `src/tritonhttp/server.go`: the per-connection loop `handleClientConnections`.

External collaborators (the Go standard library and the out-of-scope helpers
`FormatTime`, `MIMETypeByExtension`, `CanonicalHeaderKey`, `os.Stat`, the file
system) are modelled: pure stdlib functions (`strings.Split*`, `strings.Trim*`,
`filepath.Clean/Join/Rel/Ext`, `bufio.Reader.ReadLine`) are reimplemented
faithfully; effectful ones are oracles collected in an `Env` record.

Machine-level panics of the Go code (index out of range, nil dereference) are
modelled by an explicit `Crash` outcome, since they abort the program rather
than produce a value.
-/

namespace TritonHTTP

/-! ## Character-list string utilities

All string computation is done on `List Char` with structural recursion, so
that every definition evaluates inside the kernel (`decide`/`rfl`).
`ofChars` converts back to `String`.
-/

/-- Build a `String` from its character list. -/
def ofChars (cs : List Char) : String := ⟨cs⟩

/-- Split a character list at every occurrence of the character `c`.
Models Go `strings.Split(s, string(c))` for a one-character separator:
`splitChar c cs` always returns one more chunk than there are occurrences
of `c`, and `splitChar c [] = [[]]` just as `strings.Split("", sep)`
returns `[""]`. -/
def splitChar (c : Char) : List Char → List (List Char)
  | [] => [[]]
  | d :: rest =>
    let r := splitChar c rest
    if d = c then [] :: r
    else
      match r with
      | [] => [[d]]
      | l :: ls => (d :: l) :: ls

/-- Interleave the character `c` between chunks (inverse of `splitChar`). -/
def joinSep (c : Char) : List (List Char) → List Char
  | [] => []
  | [l] => l
  | l :: ls => l ++ c :: joinSep c ls

/-- Models Go `strings.SplitN(s, " ", 3)`: at most three fields, the third
field keeps any further separators unsplit. -/
def splitN3Space (s : String) : List String :=
  match splitChar ' ' s.toList with
  | a :: b :: c :: rest => [ofChars a, ofChars b, ofChars (joinSep ' ' (c :: rest))]
  | l => l.map ofChars

/-- Models Go `strings.HasPrefix(s, p)`. -/
def goHasPrefix (s p : String) : Bool := p.toList.isPrefixOf s.toList

/-- Models Go `strings.TrimLeft(s, " ")`: remove exactly the leading space
characters (no other whitespace). -/
def trimLeftSpaces (s : String) : String := ofChars (s.toList.dropWhile (· == ' '))

/-- Lexicographic comparison of character lists (the order Go `sort.Strings`
uses; on UTF-8 strings byte order and code-point order agree). -/
def charsLe : List Char → List Char → Bool
  | [], _ => true
  | _ :: _, [] => false
  | a :: as, b :: bs =>
    if a = b then charsLe as bs
    else decide (a < b)

/-- Lexicographic `≤` on strings, as a computable Bool. -/
def strLe (a b : String) : Bool := charsLe a.toList b.toList

/-! ## Header mapping

Go's `map[string]string` is modelled as an association list with
last-write-wins insertion; `hget` is map lookup, `hgetD` is lookup with the
Go zero-value default. -/

/-- Map update, overwriting any existing binding of `k` (Go `m[k] = v`). -/
def hset (m : List (String × String)) (k v : String) : List (String × String) :=
  m.filter (fun p => p.1 ≠ k) ++ [(k, v)]

/-- Map lookup (Go `v, ok := m[k]`). -/
def hget (m : List (String × String)) (k : String) : Option String :=
  (m.find? (fun p => p.1 == k)).map (·.2)

/-- Map lookup with default (Go `m[k]` returning the zero value when absent). -/
def hgetD (m : List (String × String)) (k d : String) : String :=
  (hget m k).getD d

/-! ## Decimal formatting and parsing

Models Go `fmt.Sprint` of a non-negative integer. Fuel-based structural
recursion so the kernel can evaluate it. -/

/-- Decimal digit to character. -/
def digitChar (d : Nat) : Char := Char.ofNat (48 + d)

/-- Little-endian digits of `n`; `fuel ≥ n + 1` suffices. -/
def natDigitsRevAux : Nat → Nat → List Nat
  | _, 0 => []
  | n, fuel + 1 => if n = 0 then [] else n % 10 :: natDigitsRevAux (n / 10) fuel

/-- Decimal representation of a natural number (Go `fmt.Sprint(n)`). -/
def natToStr (n : Nat) : String :=
  if n = 0 then "0" else ofChars (((natDigitsRevAux n (n + 1)).reverse).map digitChar)

/-- Parse a run of decimal digits; `none` on a non-digit or empty input. -/
def parseDecAux (acc : Nat) : List Char → Option Nat
  | [] => some acc
  | c :: rest => if c.isDigit then parseDecAux (acc * 10 + (c.toNat - 48)) rest else none

/-- Parse a nonempty all-digit character list as a natural number. -/
def parseDec (cs : List Char) : Option Nat :=
  match cs with
  | [] => none
  | _ => parseDecAux 0 cs

/-! ## Go `path/filepath` (Unix rules, no volume names)

`handleGoodRequest` calls `filepath.Join`, `filepath.Rel` and `filepath.Ext`;
these are faithful models of the Go standard library for the Unix separator. -/

/-- One step of the `filepath.Clean` segment stack: skip empty and `.`
segments; `..` pops a non-`..` segment, is dropped at the root of a rooted
path, and is kept otherwise. `acc` is the reversed stack. -/
def cleanPush (rooted : Bool) (acc : List (List Char)) (seg : List Char) : List (List Char) :=
  if seg = [] ∨ seg = ['.'] then acc
  else if seg = ['.', '.'] then
    match acc with
    | [] => if rooted then [] else [['.', '.']]
    | top :: rest => if top = ['.', '.'] then seg :: acc else rest
  else seg :: acc

/-- Is the path rooted (starts with the separator)? -/
def rootedStr (s : String) : Bool :=
  match s.toList with
  | '/' :: _ => true
  | _ => false

/-- Models Go `filepath.Clean` for Unix paths. -/
def goClean (path : String) : String :=
  if path = "" then "."
  else
    let rooted := rootedStr path
    let segs := ((splitChar '/' path.toList).foldl (cleanPush rooted) []).reverse
    if rooted then ofChars ('/' :: joinSep '/' segs)
    else if segs = [] then "." else ofChars (joinSep '/' segs)

/-- Models Go `filepath.Join(a, b)`: empty elements are skipped and the
result is cleaned; the join of two empty elements is `""`. -/
def goJoin (a b : String) : String :=
  if a = "" ∧ b = "" then ""
  else if a = "" then goClean b
  else if b = "" then goClean a
  else goClean (a ++ "/" ++ b)

/-- Drop the longest common prefix of two segment lists (the common-prefix
scan inside Go `filepath.Rel`). -/
def stripCommon : List (List Char) → List (List Char) → List (List Char) × List (List Char)
  | a :: as, b :: bs => if a = b then stripCommon as bs else (a :: as, b :: bs)
  | as, bs => (as, bs)

/-- Models Go `filepath.Rel(basepath, targpath)` for Unix paths without
volume names: clean both, require equal rootedness, strip the common segment
prefix, refuse when the remaining base starts with `..`, and otherwise climb
with one `..` per remaining base segment.  A trailing empty segment (which
arises exactly for the cleaned paths `/` and `.`) counts as no segment, as in
Go's index walk. -/
def goRel (basepath targpath : String) : Except String String :=
  let base := goClean basepath
  let targ := goClean targpath
  if targ = base then .ok "."
  else
    let base' := if base = "." then "" else base
    if (rootedStr base' = rootedStr targ) = false then
      .error "Rel: cannot make relative"
    else
      let bsegs := if base' = "" then [] else splitChar '/' base'.toList
      let tsegs := splitChar '/' targ.toList
      let (bs0, ts0) := stripCommon bsegs tsegs
      let bs := if bs0 = [[]] then [] else bs0
      let ts := if ts0 = [[]] then [] else ts0
      if bs.headD [] = ['.', '.'] then .error "Rel: cannot make relative"
      else .ok (ofChars (joinSep '/' (List.replicate bs.length ['.', '.'] ++ ts)))

/-- Models Go `filepath.Ext`: the suffix of the final path element starting
at its last dot, or `""`.  Scans the reversed character list. -/
def goExtAux (acc : List Char) : List Char → String
  | [] => ""
  | c :: rest =>
    if c = '/' then ""
    else if c = '.' then ofChars (c :: acc)
    else goExtAux (c :: acc) rest

/-- Go `filepath.Ext(path)`. -/
def goExt (path : String) : String := goExtAux [] path.toList.reverse

/-! ## Data model

`Request` and `Response` mirror the Go structs field for field.  The Go
pointer `Request *Request` becomes `Option Request`. -/

/-- The parsed request (Go struct `Request` in `src/unnamed/part_000`). -/
structure Request where
  Method : String := ""
  URL : String := ""
  Proto : String := ""
  Headers : List (String × String) := []
  Host : String := ""
  Close : Bool := false
deriving DecidableEq, Repr

/-- The response under construction (Go struct `Response` in `response.go`). -/
structure Response where
  proto : String := ""
  statusCode : Nat := 0
  statusText : String := ""
  headers : List (String × String) := []
  request : Option Request := none
  filePath : String := ""
deriving DecidableEq, Repr

/-- `responseProto` constant of `response.go`. -/
def responseProto : String := "HTTP/1.1"

/-- `statusOK` constant of `response.go`. -/
def statusOK : Nat := 200

/-- `statusBadRequest` constant of `response.go`. -/
def statusBadRequest : Nat := 400

/-- `statusNotFound` constant of `response.go`. -/
def statusNotFound : Nat := 404

/-- The `statusText` map of `response.go`; a missing key yields the Go zero
value `""`. -/
def statusText (code : Nat) : String :=
  if code = statusOK then "OK"
  else if code = statusBadRequest then "Bad Request"
  else if code = statusNotFound then "Not Found"
  else ""

/-- Failure of the `os.Stat` oracle: Go distinguishes `os.ErrNotExist`
(checked with `errors.Is`) from every other stat error. -/
inductive StatErr
  | notExist
  | other
deriving DecidableEq, Repr

/-- The slice of `os.FileInfo` the server reads: `IsDir`, `ModTime`, `Size`.
`modTime` is an abstract timestamp rendered by the `formatTime` oracle. -/
structure FileInfo where
  isDir : Bool := false
  modTime : Nat := 0
  size : Nat := 0
deriving DecidableEq, Repr

/-- Oracles for the effectful collaborators of the core (spec §1 declares
them external): `os.Stat`, `FormatTime`, `MIMETypeByExtension`, `time.Now`,
and the file contents read by `writeBody`. -/
structure Env where
  stat : String → Except StatErr FileInfo
  formatTime : Nat → String
  mimeType : String → String
  now : Nat
  readFile : String → Option String

/-- The server configuration (Go struct `Server`): the virtual-host map.
`Addr` and the listening socket are out of scope. -/
structure ServerCfg where
  vhosts : List (String × String) := []

/-- A Go runtime panic, which aborts the per-connection goroutine instead of
producing a value. -/
inductive Crash
  | indexOutOfRange
  | nilDeref
deriving DecidableEq, Repr

/-! ## The connection input and the line reader

A terminating run of one connection is modelled by the bytes that will ever
arrive (`data`) followed by what every later read reports (`fin`): the client
closing the stream (`io.EOF`) or the read deadline having expired (a
`net.Error` with `Timeout() == true`).

`readLineM` models the composition of `bufio.Reader.ReadLine` with the
repository's `readLine` wrapper (which stringifies the token and discards
`isPrefix`).  `ReadLine` semantics reproduced here:
- a complete line up to `'\n'` is returned with the final `"\r\n"` or `"\n"`
  stripped and no error;
- when the underlying reader errors while data is buffered, the buffered
  bytes are returned as a line and the error is swallowed (`err = nil`
  because `len(line) > 0`);
- when the underlying reader errors with nothing buffered, the error is
  surfaced. -/

/-- What reads report once `data` is exhausted. -/
inductive StreamEnd
  | eof
  | timeout
deriving DecidableEq, Repr

/-- The remaining input of one connection. -/
structure ConnInput where
  data : List Char
  fin : StreamEnd
deriving DecidableEq, Repr

/-- Errors surfaced by `readLine`: stream end conditions and, later in
`readRequest`, protocol errors built with `fmt.Errorf`. -/
inductive ReqErr
  | eof
  | timeout
  | bad (msg : String)
deriving DecidableEq, Repr

/-- Inject a stream end condition into `ReqErr`. -/
def StreamEnd.toErr : StreamEnd → ReqErr
  | .eof => .eof
  | .timeout => .timeout

/-- Split off the first `'\n'`-terminated line, excluding the `'\n'`. -/
def takeLine : List Char → Option (List Char × List Char)
  | [] => none
  | c :: rest =>
    if c = '\n' then some ([], rest)
    else (takeLine rest).map (fun p => (c :: p.1, p.2))

/-- Drop one trailing `'\r'` (the byte `ReadLine` strips before `'\n'`). -/
def dropTrailingCR (l : List Char) : List Char :=
  if l.getLast? = some '\r' then l.dropLast else l

/-- The model of `readLine` (`bufio.Reader.ReadLine` + wrapper), see above. -/
def readLineM (ci : ConnInput) : Except ReqErr String × ConnInput :=
  match takeLine ci.data with
  | some (l, rest) => (.ok (ofChars (dropTrailingCR l)), { ci with data := rest })
  | none =>
    match ci.data with
    | [] => (.error ci.fin.toErr, ci)
    | _ => (.ok (ofChars ci.data), { ci with data := [] })

/-! ## The request parser (`readRequest`, `parseRequestLine`) -/

/-- Go `parseRequestLine`: whitespace-split into exactly three fields or
fail. -/
def parseRequestLine (line : String) : Except String (List String) :=
  let fields := splitN3Space line
  if fields.length ≠ 3 then .error "could not parse the request line"
  else .ok fields

/-- `CanonicalHeaderKey`.  Modelled from the spec: the function is invoked by
`readRequest` but its definition is not under `src/`; the spec (§4.2)
describes it as "canonicalize the name using the wire convention (each
hyphen-separated segment capitalized, remaining characters lowercased)". -/
def canonicalHeaderKey (s : String) : String :=
  let cap : List Char → List Char := fun seg =>
    match seg with
    | [] => []
    | c :: rest => c.toUpper :: rest.map Char.toLower
  ofChars (joinSep '-' ((splitChar '-' s.toList).map cap))

/-- Result of the header-reading loop inside `readRequest`. -/
inductive HdrRes
  | done (hs : List (String × String)) (rest : ConnInput)
  | err (e : ReqErr) (rest : ConnInput)
  | fuelOut
deriving DecidableEq, Repr

/-- The header loop of `readRequest`: read lines until the empty terminator,
requiring a colon in each, splitting on **every** colon and keeping field 1
(`strings.Split(line, ":")[1]`), canonicalizing the key, left-trimming spaces
of the value, and storing last-write-wins.  Structural fuel; callers pass
`data.length + 1`, which `readHeadersAux_ne_fuelOut` proves sufficient. -/
def readHeadersAux : Nat → ConnInput → List (String × String) → HdrRes
  | 0, _, _ => .fuelOut
  | fuel + 1, ci, hs =>
    match readLineM ci with
    | (.error e, ci') => .err e ci'
    | (.ok line, ci') =>
      if line = "" then .done hs ci'
      else if line.toList.contains ':' then
        let header := splitChar ':' line.toList
        let headerKey := canonicalHeaderKey (ofChars (header.headD []))
        let headerVal := ofChars ((header.getD 1 []).dropWhile (· == ' '))
        readHeadersAux fuel ci' (hset hs headerKey headerVal)
      else .err (.bad "400: Invalid header") ci'

/-- Result of `readRequest`: Go's `(req, fRequest, err)` triple, with the
unread rest of the input made explicit and panics made a distinct outcome.
`noReq` is the Go `fRequest` flag: `true` exactly when the very first
`readLine` failed. -/
inductive ReadRes
  | ok (req : Request) (rest : ConnInput)
  | err (noReq : Bool) (e : ReqErr) (rest : ConnInput)
  | crash
deriving DecidableEq, Repr

/-- Go `readRequest` (`src/unnamed/part_000`).  `.crash` is the
`req.URL[0]` index-out-of-range panic on an empty second request-line
field. -/
def readRequest (ci : ConnInput) : ReadRes :=
  match readLineM ci with
  | (.error e, ci') => .err true e ci'
  | (.ok line, ci₁) =>
    match parseRequestLine line with
    | .error _ => .err false (.bad "could not parse the request line") ci₁
    | .ok startLine =>
      let method := startLine.getD 0 ""
      if method ≠ "GET" then .err false (.bad "400: Invalid method") ci₁
      else
        let url := startLine.getD 1 ""
        match url.toList with
        | [] => .crash
        | c :: _ =>
          if c ≠ '/' then .err false (.bad "400: Invalid URL") ci₁
          else
            let proto := startLine.getD 2 ""
            if proto ≠ "HTTP/1.1" then .err false (.bad "400: Invalid version") ci₁
            else
              match readHeadersAux (ci₁.data.length + 1) ci₁ [] with
              | .done hs rest =>
                match hget hs "Host" with
                | some hostVal =>
                  let close :=
                    match hget hs "Connection" with
                    | some v => v == "close"
                    | none => false
                  .ok { Method := method, URL := url, Proto := proto,
                        Headers := hs, Host := hostVal, Close := close } rest
                | none => .err false (.bad "400: Host Needed") rest
              | .err e rest => .err false e rest
              | .fuelOut => .err false (.bad "out of fuel") ci₁

/-! ## Response builders (`response.go`) -/

/-- Go `(res *Response) init(req)`: version literal, fresh header map with a
`Date` header, `Connection: close` when the originating request asked to
close, and the back-reference to the request. -/
def Response.init (env : Env) (res : Response) (req : Option Request) : Response :=
  let h0 := hset [] "Date" (env.formatTime env.now)
  let h1 :=
    match req with
    | some r => if r.Close then hset h0 "Connection" "close" else h0
    | none => h0
  { res with proto := responseProto, headers := h1, request := req }

/-- Go `handleBadRequest`: `400`, unconditional `Connection: close`, no
body. -/
def Response.handleBadRequest (env : Env) (res : Response) (req : Option Request) : Response :=
  let r := Response.init env res req
  { r with statusCode := statusBadRequest,
           statusText := TritonHTTP.statusText statusBadRequest,
           headers := hset r.headers "Connection" "close",
           filePath := "" }

/-- Go `handleNotFound`: `404`, baseline headers only, no body. -/
def Response.handleNotFound (env : Env) (res : Response) (req : Option Request) : Response :=
  let r := Response.init env res req
  { r with statusCode := statusNotFound,
           statusText := TritonHTTP.statusText statusNotFound,
           filePath := "" }

/-- Go `handleOK`: `200` plus `Last-Modified`, `Content-Type`,
`Content-Length` from a second `os.Stat` whose error is ignored — a failing
stat leaves `fi` nil and `fi.ModTime()` panics, hence the `.error .nilDeref`
branch. -/
def Response.handleOK (env : Env) (res : Response) (req : Option Request) :
    Except Crash Response :=
  let r := Response.init env res req
  let r := { r with statusCode := statusOK, statusText := TritonHTTP.statusText statusOK }
  match env.stat r.filePath with
  | .error _ => .error .nilDeref
  | .ok fi =>
    let ext := goExt r.filePath
    let h1 := hset r.headers "Last-Modified" (env.formatTime fi.modTime)
    let h2 := hset h1 "Content-Type" (env.mimeType ext)
    let h3 := hset h2 "Content-Length" (natToStr fi.size)
    .ok { r with headers := h3 }

/-- Go `(s *Server) handleGoodRequest(req)` (`response.go`): append the index
document to a directory target (`req.URL[len(req.URL)-1]` panics on an empty
URL), look up the virtual host (missing hosts give the Go zero value `""`),
join and make relative, reject traversal (`..` prefix) and resolution errors
with `404`, stat the candidate — `errors.Is(err, os.ErrNotExist) ||
fi.IsDir()` dereferences nil `fi` when the stat error is not
`os.ErrNotExist` — reject missing files and directories with `404`, and
otherwise build the `200` response with the file attached. -/
def handleGoodRequest (env : Env) (s : ServerCfg) (req : Request) : Except Crash Response :=
  let res : Response := {}
  match req.URL.toList.getLast? with
  | none => .error .indexOutOfRange
  | some lastc =>
    let req := if lastc = '/' then { req with URL := req.URL ++ "index.html" } else req
    let docroot := hgetD s.vhosts req.Host ""
    let path := goJoin docroot req.URL
    match goRel docroot path with
    | .error _ => .ok (Response.handleNotFound env res (some req))
    | .ok pathRel =>
      if goHasPrefix pathRel ".." then .ok (Response.handleNotFound env res (some req))
      else
        match env.stat path with
        | .error .notExist => .ok (Response.handleNotFound env res (some req))
        | .error .other => .error .nilDeref
        | .ok fi =>
          if fi.isDir then .ok (Response.handleNotFound env res (some req))
          else Response.handleOK env { res with filePath := path } (some req)

/-! ## The response writer (`Write`, `writeStatusLine`, `writeHeaders`,
`writeBody`)

The bytes written to the connection are modelled as the produced `String`.
`writeHeaders` sorts the keys (Go `sort.Strings`) with an insertion sort over
the lexicographic comparator `strLe`. -/

/-- Insert a key into a `strLe`-sorted list. -/
def insertKey (k : String) : List String → List String
  | [] => [k]
  | x :: xs => if strLe k x then k :: x :: xs else x :: insertKey k xs

/-- Sort keys lexicographically (Go `sort.Strings(keys)`). -/
def sortKeys : List String → List String
  | [] => []
  | x :: xs => insertKey x (sortKeys xs)

/-- Go `writeStatusLine`: `fmt.Sprintf("%v %v %v\r\n", res.Proto,
res.StatusCode, statusText[res.StatusCode])` — note the reason phrase comes
from the `statusText` map, not from `res.StatusText`. -/
def writeStatusLine (res : Response) : String :=
  res.proto ++ " " ++ natToStr res.statusCode ++ " " ++ statusText res.statusCode ++ "\r\n"

/-- The header lines for the given key order. -/
def headerLines (m : List (String × String)) : List String → String
  | [] => ""
  | k :: ks => k ++ ": " ++ hgetD m k "" ++ "\r\n" ++ headerLines m ks

/-- Go `writeHeaders`: every header as `<Key>: <Value>\r\n` in sorted key
order, then the terminating blank line. -/
def writeHeaders (res : Response) : String :=
  headerLines res.headers (sortKeys (res.headers.map (·.1))) ++ "\r\n"

/-- Go `writeBody`: nothing when `FilePath` is empty; a failing open is
logged and treated as an empty body; otherwise the file contents verbatim. -/
def writeBody (env : Env) (res : Response) : String :=
  if res.filePath = "" then ""
  else
    match env.readFile res.filePath with
    | none => ""
    | some contents => contents

/-- Go `(res *Response) Write(w)`: status line, headers, body. -/
def writeResponse (env : Env) (res : Response) : String :=
  writeStatusLine res ++ writeHeaders res ++ writeBody env res

/-! ## The connection handler (`handleClientConnections`, `server.go`)

The handler's observable behaviour on one connection is the list of
responses it writes before closing (every exit path closes the stream), or
the panic that aborts the goroutine.  Structural fuel; callers pass
`data.length + 1`, which is sufficient because every loop iteration consumes
at least one character of input. -/

/-- The per-connection loop.  Branches in source order: `io.EOF` closes
silently; a timeout closes silently when nothing was read (`noReq`) and
answers `400` otherwise; any other `readRequest` error answers `400`; a good
request is resolved and written, and the loop continues unless the request
asked to close. -/
def handleConnAux (env : Env) (cfg : ServerCfg) : Nat → ConnInput → Except Crash (List Response)
  | 0, _ => .ok []
  | fuel + 1, ci =>
    match readRequest ci with
    | .crash => .error .indexOutOfRange
    | .err _ .eof _ => .ok []
    | .err noReq .timeout _ =>
      if noReq then .ok []
      else .ok [Response.handleBadRequest env {} none]
    | .err _ (.bad _) _ => .ok [Response.handleBadRequest env {} none]
    | .ok req rest =>
      match handleGoodRequest env cfg req with
      | .error c => .error c
      | .ok res =>
        if req.Close then .ok [res]
        else (handleConnAux env cfg fuel rest).map (res :: ·)

/-- `handleClientConnections` on a terminating input. -/
def handleConn (env : Env) (cfg : ServerCfg) (ci : ConnInput) : Except Crash (List Response) :=
  handleConnAux env cfg (ci.data.length + 1) ci

/-! ## Re-parsing serialized responses

Modelled from the spec: §8's round-trip property re-parses "the serialized
status line and header block"; the wire format is §6: status line
`<VERSION> <SP> <CODE> <SP> <REASON> CRLF`, header lines
`<Name>:<optional leading spaces><Value> CRLF`, block terminated by an empty
line.  These definitions follow the spec's words, not the Go code, and are
compared with the writer in the round-trip theorem. -/

/-- Split a character stream at every CRLF. -/
def splitCRLF : List Char → List (List Char)
  | [] => [[]]
  | '\r' :: '\n' :: rest => [] :: splitCRLF rest
  | c :: rest =>
    match splitCRLF rest with
    | [] => [[c]]
    | l :: ls => (c :: l) :: ls

/-- Split a header line at its first colon. -/
def splitFirstColon : List Char → Option (List Char × List Char)
  | [] => none
  | c :: rest =>
    if c = ':' then some ([], rest)
    else (splitFirstColon rest).map (fun p => (c :: p.1, p.2))

/-- Re-parse one header line per the wire convention: name before the first
colon, value the remainder with leading spaces removed. -/
def reparseHeaderLine (cs : List Char) : Option (String × String) :=
  (splitFirstColon cs).map
    (fun p => (ofChars p.1, ofChars (p.2.dropWhile (· == ' '))))

/-- Re-parse the header block: lines up to the first empty (terminator)
line; `none` if a line has no colon or no terminator is found. -/
def reparseHeaderBlock : List (List Char) → Option (List (String × String))
  | [] => none
  | l :: rest =>
    if l = [] then some []
    else
      match reparseHeaderLine l, reparseHeaderBlock rest with
      | some p, some ps => some (p :: ps)
      | _, _ => none

/-- Re-parse the status code: the second space-separated field of the status
line. -/
def reparseStatusCode (cs : List Char) : Option Nat :=
  match splitChar ' ' cs with
  | _ :: code :: _ => parseDec code
  | _ => none

/-- Re-parse a serialized response head: status code and header list. -/
def reparseHead (s : String) : Option (Nat × List (String × String)) :=
  match splitCRLF s.toList with
  | [] => none
  | sl :: rest =>
    match reparseStatusCode sl, reparseHeaderBlock rest with
    | some code, some hs => some (code, hs)
    | _, _ => none

/-- The headers of a response in the order the writer emits them: keys
sorted, each paired with its mapped value. -/
def sortedPairs (res : Response) : List (String × String) :=
  (sortKeys (res.headers.map (·.1))).map (fun k => (k, hgetD res.headers k ""))

/-- Adjacent sortedness of the emitted keys, as a computable Bool. -/
def keysSorted : List String → Bool
  | [] => true
  | [_] => true
  | a :: b :: rest => strLe a b && keysSorted (b :: rest)

/-! ## The request parser as the specification words it (claim C5)

Modelled from the spec (§4.2): a classifier that reports, for a given input,
whether the parser contract says "complete Request", "fail with BadRequest"
(with the reason), or "the line source ended".  It follows the sentence
"reasons include: malformed request line in which whitespace-splitting into
exactly three fields fails; unsupported method; target not beginning with
`/`; unsupported protocol version; a header line containing no colon
separator; absence of a `Host` header after the header block terminator line
is reached", checked in that order.  It is compared with `readRequest` in the
C5 theorem. -/

/-- The spec's failure reasons for the request parser. -/
inductive SpecReason
  | notThreeFields
  | badMethod
  | badTarget
  | badVersion
  | headerNoColon
  | noHost
deriving DecidableEq, Repr

/-- What the spec says the parser does on a given input. -/
inductive SpecOutcome
  | ok
  | badReq (r : SpecReason)
  | streamEnd
deriving DecidableEq, Repr

/-- The spec's header phase: scan header lines up to the empty terminator,
failing on a line with no colon, and finally require that some header's
canonical name was `Host`.  The header name is the part of the line before
the first colon. -/
def specHeadersAux : Nat → ConnInput → Bool → SpecOutcome
  | 0, _, _ => .streamEnd
  | fuel + 1, ci, hostSeen =>
    match readLineM ci with
    | (.error _, _) => .streamEnd
    | (.ok line, ci') =>
      if line = "" then (if hostSeen then .ok else .badReq .noHost)
      else if line.toList.contains ':' then
        let name := ofChars (line.toList.takeWhile (· != ':'))
        specHeadersAux fuel ci' (hostSeen || (canonicalHeaderKey name == "Host"))
      else .badReq .headerNoColon

/-- The spec's request-parser contract, as a classifier. -/
def specParse (ci : ConnInput) : SpecOutcome :=
  match readLineM ci with
  | (.error _, _) => .streamEnd
  | (.ok line, ci₁) =>
    let fields := splitN3Space line
    if fields.length ≠ 3 then .badReq .notThreeFields
    else if fields.getD 0 "" ≠ "GET" then .badReq .badMethod
    else if goHasPrefix (fields.getD 1 "") "/" = false then .badReq .badTarget
    else if fields.getD 2 "" ≠ "HTTP/1.1" then .badReq .badVersion
    else specHeadersAux (ci₁.data.length + 1) ci₁ false

/-! ## Concrete oracles for witnesses and counterexamples -/

/-- A concrete environment: every stat reports "does not exist", no files. -/
def envNone : Env :=
  { stat := fun _ => .error .notExist
    formatTime := fun _ => "Thu, 01 Jan 1970 00:00:00 GMT"
    mimeType := fun _ => "application/octet-stream"
    now := 0
    readFile := fun _ => none }

/-- A concrete environment: every path stats as a 7-byte regular file. -/
def envFile : Env :=
  { stat := fun _ => .ok { isDir := false, modTime := 5, size := 7 }
    formatTime := fun _ => "Thu, 01 Jan 1970 00:00:00 GMT"
    mimeType := fun _ => "text/html"
    now := 0
    readFile := fun _ => some "ithere1" }

/-- A concrete environment: every stat fails with a non-not-exist error. -/
def envDenied : Env :=
  { stat := fun _ => .error .other
    formatTime := fun _ => "Thu, 01 Jan 1970 00:00:00 GMT"
    mimeType := fun _ => "application/octet-stream"
    now := 0
    readFile := fun _ => none }

/-- A concrete virtual-host map: `example.com ↦ /srv/www`. -/
def cfgExample : ServerCfg := ⟨[("example.com", "/srv/www")]⟩

/-- Wire-safety of a response: the proto and every header key and value are
free of CR/LF (a value containing a bare line break cannot round-trip
through a line-oriented wire format), the proto has no space, keys have no
colon, and values do not begin with a space (leading spaces are the optional
padding of the wire convention and are not preserved). -/
def wfResponse (res : Response) : Prop :=
  (∀ c ∈ res.proto.toList, c ≠ '\r' ∧ c ≠ '\n' ∧ c ≠ ' ') ∧
  (∀ p ∈ res.headers,
    ('\r' ∉ (Prod.fst p).toList ∧ '\n' ∉ (Prod.fst p).toList ∧ ':' ∉ (Prod.fst p).toList) ∧
    ('\r' ∉ (Prod.snd p).toList ∧ '\n' ∉ (Prod.snd p).toList) ∧
    (Prod.snd p).toList.head? ≠ some ' ')

instance wfResponse.instDecidable (res : Response) : Decidable (wfResponse res) := by
  unfold wfResponse
  exact inferInstance

/-! ## Basic lemmas about the line reader and fuel -/

theorem takeLine_length {cs : List Char} :
    ∀ {l rest}, takeLine cs = some (l, rest) → rest.length < cs.length := by
  induction cs with
  | nil => intro l rest h; simp [takeLine] at h
  | cons c cs ih =>
    intro l rest h
    rw [takeLine] at h
    by_cases hc : c = '\n'
    · rw [if_pos hc] at h
      injection h with h
      rw [Prod.mk.injEq] at h
      rw [← h.2]
      simp
    · rw [if_neg hc] at h
      rcases htl : takeLine cs with _ | ⟨p1, p2⟩ <;> rw [htl] at h
      · simp at h
      · simp at h
        have := ih htl
        simp [← h.2]
        omega

theorem readLineM_ok_length {ci : ConnInput} {l : String} {ci' : ConnInput}
    (h : readLineM ci = (.ok l, ci')) : ci'.data.length < ci.data.length := by
  unfold readLineM at h
  rcases htl : takeLine ci.data with _ | ⟨ln, rest⟩
  · rw [htl] at h
    rcases hd : ci.data with _ | ⟨c, cs⟩
    · rw [hd] at h; simp at h
    · rw [hd] at h
      simp at h
      obtain ⟨-, h2⟩ := h
      rw [← h2]
      simp [hd]
  · rw [htl] at h
    simp at h
    obtain ⟨-, h2⟩ := h
    rw [← h2]
    simpa using takeLine_length htl

theorem readLineM_err_rest {ci : ConnInput} {e : ReqErr} {ci' : ConnInput}
    (h : readLineM ci = (.error e, ci')) :
    ci.data = [] ∧ ci' = ci ∧ e = ci.fin.toErr := by
  unfold readLineM at h
  rcases htl : takeLine ci.data with _ | ⟨ln, rest⟩
  · rw [htl] at h
    rcases hd : ci.data with _ | ⟨c, cs⟩
    · rw [hd] at h; simp at h; exact ⟨rfl, h.2.symm, h.1.symm⟩
    · rw [hd] at h; simp at h
  · rw [htl] at h; simp at h

theorem readHeadersAux_ne_fuelOut :
    ∀ (fuel : Nat) (ci : ConnInput) (hs : List (String × String)),
      ci.data.length < fuel → readHeadersAux fuel ci hs ≠ .fuelOut := by
  intro fuel
  induction fuel with
  | zero => intro ci hs h; omega
  | succ fuel ih =>
    intro ci hs hf
    rw [readHeadersAux]
    rcases hr : readLineM ci with ⟨res, ci'⟩
    rcases res with e | line
    · simp
    · have hlen := readLineM_ok_length hr
      dsimp only
      by_cases h0 : line = ""
      · simp [h0]
      · rw [if_neg h0]
        by_cases h1 : line.toList.contains ':' = true
        · rw [if_pos h1]
          exact ih ci' _ (by omega)
        · rw [if_neg h1]
          simp

theorem readHeadersAux_rest_length :
    ∀ (fuel : Nat) (ci : ConnInput) (hs hs' : List (String × String)) (rest : ConnInput),
      readHeadersAux fuel ci hs = .done hs' rest ∨
        (∃ e, readHeadersAux fuel ci hs = .err e rest) →
      rest.data.length ≤ ci.data.length := by
  intro fuel
  induction fuel with
  | zero =>
    intro ci hs hs' rest h
    rcases h with h | ⟨e, h⟩ <;> simp [readHeadersAux] at h
  | succ fuel ih =>
    intro ci hs hs' rest h
    rw [readHeadersAux] at h
    rcases hr : readLineM ci with ⟨res, ci'⟩
    rw [hr] at h
    rcases res with e | line
    · rcases h with h | ⟨e', h⟩
      · simp at h
      · simp at h
        obtain ⟨-, h2⟩ := h
        have := readLineM_err_rest hr
        rw [← h2, this.2.1]
    · have hlen := readLineM_ok_length hr
      dsimp only at h
      by_cases h0 : line = ""
      · rcases h with h | ⟨e', h⟩
        · simp [h0] at h
          rw [← h.2]; omega
        · simp [h0] at h
      · rw [if_neg h0] at h
        by_cases h1 : line.toList.contains ':' = true
        · rw [if_pos h1] at h
          have := ih ci' _ hs' rest h
          omega
        · rw [if_neg h1] at h
          rcases h with h | ⟨e', h⟩
          · simp at h
          · simp at h
            rw [← h.2]; omega

theorem readRequest_ok_length {ci : ConnInput} {req : Request} {rest : ConnInput}
    (h : readRequest ci = .ok req rest) : rest.data.length < ci.data.length := by
  unfold readRequest at h
  rcases hr : readLineM ci with ⟨res, ci₁⟩
  rw [hr] at h
  rcases res with e | line
  · simp at h
  · have hlen := readLineM_ok_length hr
    dsimp only at h
    rcases hp : parseRequestLine line with e | startLine <;> rw [hp] at h
    · simp at h
    · dsimp only at h
      by_cases hm : startLine.getD 0 "" ≠ "GET"
      · rw [if_pos hm] at h; simp at h
      · rw [if_neg hm] at h
        rcases hu : (startLine.getD 1 "").toList with _ | ⟨c, cs⟩ <;> rw [hu] at h
        · simp at h
        · dsimp only at h
          by_cases hc : c ≠ '/'
          · rw [if_pos hc] at h; simp at h
          · rw [if_neg hc] at h
            by_cases hv : startLine.getD 2 "" ≠ "HTTP/1.1"
            · rw [if_pos hv] at h; simp at h
            · rw [if_neg hv] at h
              rcases hh : readHeadersAux (ci₁.data.length + 1) ci₁ [] with
                ⟨hs, rest'⟩ | ⟨e, rest'⟩ | _ <;> rw [hh] at h
              · dsimp only at h
                rcases hhost : hget hs "Host" with _ | v <;> rw [hhost] at h
                · simp at h
                · dsimp only at h
                  injection h with h1 h2
                  subst h2
                  have hle := readHeadersAux_rest_length (ci₁.data.length + 1) ci₁ [] hs rest'
                    (Or.inl hh)
                  omega
              · simp at h
              · simp at h

theorem handleConnAux_fuel (env : Env) (cfg : ServerCfg) :
    ∀ (n f g : Nat) (ci : ConnInput), ci.data.length ≤ n → ci.data.length < f →
      ci.data.length < g → handleConnAux env cfg f ci = handleConnAux env cfg g ci := by
  intro n
  induction n with
  | zero =>
    intro f g ci h0 hf hg
    obtain ⟨f', rfl⟩ : ∃ f', f = f' + 1 := ⟨f - 1, by omega⟩
    obtain ⟨g', rfl⟩ : ∃ g', g = g' + 1 := ⟨g - 1, by omega⟩
    rw [handleConnAux, handleConnAux]
    rcases hrr : readRequest ci with ⟨req, rest⟩ | ⟨nr, e, rest⟩ | _
    · exact absurd (readRequest_ok_length hrr) (by omega)
    · rcases e <;> rfl
    · rfl
  | succ n ih =>
    intro f g ci h0 hf hg
    obtain ⟨f', rfl⟩ : ∃ f', f = f' + 1 := ⟨f - 1, by omega⟩
    obtain ⟨g', rfl⟩ : ∃ g', g = g' + 1 := ⟨g - 1, by omega⟩
    rw [handleConnAux, handleConnAux]
    rcases hrr : readRequest ci with ⟨req, rest⟩ | ⟨nr, e, rest⟩ | _
    · have hlt := readRequest_ok_length hrr
      dsimp only
      rcases hg' : handleGoodRequest env cfg req with c | res
      · rfl
      · dsimp only
        by_cases hcl : req.Close
        · simp [hcl]
        · simp only [hcl, if_false, Bool.false_eq_true]
          rw [ih f' g' rest (by omega) (by omega) (by omega)]
    · rcases e <;> rfl
    · rfl

theorem handleConnAux_eq_handleConn {env : Env} {cfg : ServerCfg} {f : Nat} {ci : ConnInput}
    (h : ci.data.length < f) : handleConnAux env cfg f ci = handleConn env cfg ci :=
  handleConnAux_fuel env cfg ci.data.length f (ci.data.length + 1) ci le_rfl h (by omega)

theorem handleConn_of_crash {env : Env} {cfg : ServerCfg} {ci : ConnInput}
    (h : readRequest ci = .crash) : handleConn env cfg ci = .error .indexOutOfRange := by
  unfold handleConn
  rw [handleConnAux, h]

theorem handleConn_of_eof {env : Env} {cfg : ServerCfg} {ci : ConnInput} {nr : Bool}
    {rest : ConnInput} (h : readRequest ci = .err nr .eof rest) :
    handleConn env cfg ci = .ok [] := by
  unfold handleConn
  rw [handleConnAux, h]

theorem handleConn_of_timeout {env : Env} {cfg : ServerCfg} {ci : ConnInput} {nr : Bool}
    {rest : ConnInput} (h : readRequest ci = .err nr .timeout rest) :
    handleConn env cfg ci =
      (if nr then .ok [] else .ok [Response.handleBadRequest env {} none]) := by
  unfold handleConn
  rw [handleConnAux, h]

theorem handleConn_of_bad {env : Env} {cfg : ServerCfg} {ci : ConnInput} {nr : Bool}
    {msg : String} {rest : ConnInput} (h : readRequest ci = .err nr (.bad msg) rest) :
    handleConn env cfg ci = .ok [Response.handleBadRequest env {} none] := by
  unfold handleConn
  rw [handleConnAux, h]

theorem handleConn_of_ok {env : Env} {cfg : ServerCfg} {ci : ConnInput} {req : Request}
    {rest : ConnInput} {res : Response} (h : readRequest ci = .ok req rest)
    (hg : handleGoodRequest env cfg req = .ok res) :
    handleConn env cfg ci =
      (if req.Close then .ok [res] else (handleConn env cfg rest).map (res :: ·)) := by
  unfold handleConn
  rw [handleConnAux, h]
  dsimp only
  rw [hg]
  dsimp only
  by_cases hcl : req.Close
  · simp [hcl]
  · simp only [hcl, if_false, Bool.false_eq_true]
    rw [handleConnAux_eq_handleConn (readRequest_ok_length h)]
    rfl

/-! ## Further helper lemmas -/

theorem takeLine_of_no_nl : ∀ {cs : List Char}, '\n' ∉ cs → takeLine cs = none := by
  intro cs
  induction cs with
  | nil => intro _; rfl
  | cons c cs ih =>
    intro h
    rw [takeLine, if_neg (by simp at h; exact Ne.symm (by simpa using h.1))]
    rw [ih (by simp at h; exact h.2)]
    rfl

theorem readLineM_no_nl {ci : ConnInput} (hne : ci.data ≠ []) (hnl : '\n' ∉ ci.data) :
    readLineM ci = (.ok (ofChars ci.data), ⟨[], ci.fin⟩) := by
  unfold readLineM
  rw [takeLine_of_no_nl hnl]
  rcases hd : ci.data with _ | ⟨c, cs⟩
  · exact absurd hd hne
  · rfl

theorem readRequest_nil {ci : ConnInput} (hd : ci.data = []) :
    readRequest ci = .err true ci.fin.toErr ci := by
  unfold readRequest readLineM
  rw [takeLine_of_no_nl (by rw [hd]; simp), hd]

theorem hget_handleBadRequest_connection (env : Env) :
    hget (Response.handleBadRequest env {} none).headers "Connection" = some "close" := by
  simp [Response.handleBadRequest, Response.init, hset, hget]

theorem handleBadRequest_statusCode (env : Env) :
    (Response.handleBadRequest env {} none).statusCode = 400 := rfl

/-! ## Claim theorems -/

/-- Claim C9 (confirmed): the request line `GET  HTTP/1.1` (two consecutive
spaces) whitespace-splits into exactly three fields with an empty second
field, so `parseRequestLine` succeeds, the method check passes, and the
parser reaches `req.URL[0]` with an empty `URL`: the index access is out of
range and the parser panics instead of reaching its BadRequest branch. -/
theorem c9_empty_target_index_crash :
    splitN3Space "GET  HTTP/1.1" = ["GET", "", "HTTP/1.1"] ∧
    parseRequestLine "GET  HTTP/1.1" = .ok ["GET", "", "HTTP/1.1"] ∧
    readRequest ⟨("GET  HTTP/1.1\r\n").toList, .eof⟩ = .crash := by
  refine ⟨by decide, by rfl, by decide⟩

/-- Claim C4 (code bug): on the header line `Host: localhost:8080` the
parser stores the value `"localhost"` — `strings.Split(line, ":")` splits on
every colon and `header[1]` keeps only the segment between the first and the
second — although the spec mandates splitting on the first colon only, whose
left-trimmed remainder is `"localhost:8080"`. -/
theorem c4_header_value_truncated :
    readRequest ⟨("GET / HTTP/1.1\r\nHost: localhost:8080\r\n\r\n").toList, .eof⟩ =
      .ok { Method := "GET", URL := "/", Proto := "HTTP/1.1",
            Headers := [("Host", "localhost")], Host := "localhost", Close := false }
        ⟨[], .eof⟩ ∧
    trimLeftSpaces " localhost:8080" = "localhost:8080" := by
  refine ⟨by decide, by decide⟩

/-- Claim C2, counterexample: the client sends a request line and one header
and then closes the stream (end-of-stream after part of a request, before
the empty terminator line).  The claim says the handler responds with a
`400` before closing; in fact `readRequest` reports `io.EOF` (with
`noReq = false`), the handler's `errors.Is(err, io.EOF)` branch fires first,
and the connection is closed silently: no response is written. -/
theorem c2_counterexample :
    readRequest ⟨("GET / HTTP/1.1\r\nHost: a\r\n").toList, .eof⟩ =
      .err false .eof ⟨[], .eof⟩ ∧
    handleConn envNone cfgExample ⟨("GET / HTTP/1.1\r\nHost: a\r\n").toList, .eof⟩ =
      .ok [] := by
  refine ⟨by decide, by rfl⟩

/-- Claim C2 (amended): when end-of-stream is reached during a request —
whether before the request line (`noReq = true`) or after part of the
request was already read (`noReq = false`) — the handler closes the
connection silently, writing nothing; the partial/zero-bytes distinction
recorded in `noReq` is not consulted on the EOF path. -/
theorem c2_eof_silent_close (env : Env) (cfg : ServerCfg) (ci : ConnInput) (nr : Bool)
    (rest : ConnInput) (h : readRequest ci = .err nr .eof rest) :
    handleConn env cfg ci = .ok [] :=
  handleConn_of_eof h

/-- Witness for C2: the amended theorem applied to a concrete connection
that reaches EOF mid-headers. -/
theorem c2_witness :
    handleConn envFile cfgExample ⟨("GET /i HTTP/1.1\r\nHost: b\r\n").toList, .eof⟩ =
      .ok [] :=
  c2_eof_silent_close envFile cfgExample _ false ⟨[], .eof⟩ (by decide)

/-- Claim C6 (confirmed): every parse failure (`fmt.Errorf` error from
`readRequest`) is answered with the `handleBadRequest` response — status
`400`, status text and status-line reason `Bad Request`, an unconditional
`Connection: close` header (the request pointer is nil, so nothing of the
unparsed request can influence it), no body (`FilePath = ""` and
`writeBody` emits nothing) — and the handler closes the connection after
writing it (the run ends with exactly this one response). -/
theorem c6_bad_request_response (env : Env) (cfg : ServerCfg) (ci : ConnInput) (nr : Bool)
    (msg : String) (rest : ConnInput) (h : readRequest ci = .err nr (.bad msg) rest) :
    handleConn env cfg ci = .ok [Response.handleBadRequest env {} none] ∧
    (Response.handleBadRequest env {} none).statusCode = 400 ∧
    (Response.handleBadRequest env {} none).statusText = "Bad Request" ∧
    statusText (Response.handleBadRequest env {} none).statusCode = "Bad Request" ∧
    hget (Response.handleBadRequest env {} none).headers "Connection" = some "close" ∧
    (Response.handleBadRequest env {} none).filePath = "" ∧
    writeBody env (Response.handleBadRequest env {} none) = "" :=
  ⟨handleConn_of_bad h, rfl, rfl, rfl, hget_handleBadRequest_connection env, rfl, rfl⟩

/-- Witness for C6: the spec's own example `GET /` (missing version field)
is answered with exactly one `400` response carrying `Connection: close`. -/
theorem c6_witness :
    handleConn envNone cfgExample ⟨("GET /\r\n").toList, .eof⟩ =
      .ok [Response.handleBadRequest envNone {} none] ∧
    hget (Response.handleBadRequest envNone {} none).headers "Connection" = some "close" := by
  have h := c6_bad_request_response envNone cfgExample ⟨("GET /\r\n").toList, .eof⟩ false
    "could not parse the request line" ⟨[], .eof⟩ (by decide)
  exact ⟨h.1, h.2.2.2.2.1⟩

/-- Claim C10 (confirmed): when the traversal check passes and `os.Stat`
fails with an error other than not-exist (for example a permission error),
`errors.Is(err, os.ErrNotExist)` is false and `fi.IsDir()` dereferences the
nil file info: the resolver panics.  The guard is safe only under the
precondition that `Stat` succeeds or fails specifically with not-exist. -/
theorem c10_stat_nil_deref (env : Env) (cfg : ServerCfg) (req : Request) (c : Char)
    (r : String)
    (hlast : req.URL.toList.getLast? = some c) (hc : c ≠ '/')
    (hrel : goRel (hgetD cfg.vhosts req.Host "")
      (goJoin (hgetD cfg.vhosts req.Host "") req.URL) = .ok r)
    (hpre : goHasPrefix r ".." = false)
    (hstat : env.stat (goJoin (hgetD cfg.vhosts req.Host "") req.URL) = .error .other) :
    handleGoodRequest env cfg req = .error .nilDeref := by
  unfold handleGoodRequest
  rw [hlast]
  dsimp only
  rw [if_neg hc]
  rw [hrel]
  dsimp only
  rw [if_neg (by rw [hpre]; exact Bool.false_ne_true)]
  rw [hstat]

/-- Witness for C10: a permission-style stat failure on `/srv/www/a`
crashes the resolver with the nil dereference. -/
theorem c10_witness :
    handleGoodRequest envDenied cfgExample
      { Method := "GET", URL := "/a", Proto := "HTTP/1.1",
        Headers := [("Host", "example.com")], Host := "example.com", Close := false } =
      .error .nilDeref :=
  c10_stat_nil_deref envDenied cfgExample _ 'a' "a" (by decide) (by decide) (by rfl)
    (by decide) rfl

theorem readRequest_partial_line {ci : ConnInput} (hne : ci.data ≠ []) (hnl : '\n' ∉ ci.data) :
    (∃ msg, readRequest ci = .err false (.bad msg) ⟨[], ci.fin⟩) ∨
      readRequest ci = .err false ci.fin.toErr ⟨[], ci.fin⟩ ∨
      readRequest ci = .crash := by
  have hline := readLineM_no_nl hne hnl
  unfold readRequest
  rw [hline]
  dsimp only
  rcases hp : parseRequestLine (ofChars ci.data) with e | startLine
  · exact .inl ⟨_, rfl⟩
  · dsimp only
    by_cases hm : startLine.getD 0 "" ≠ "GET"
    · rw [if_pos hm]; exact .inl ⟨_, rfl⟩
    · rw [if_neg hm]
      rcases hu : (startLine.getD 1 "").toList with _ | ⟨c, cs⟩
      · exact .inr (.inr rfl)
      · dsimp only
        by_cases hc : c ≠ '/'
        · rw [if_pos hc]; exact .inl ⟨_, rfl⟩
        · rw [if_neg hc]
          by_cases hv : startLine.getD 2 "" ≠ "HTTP/1.1"
          · rw [if_pos hv]; exact .inl ⟨_, rfl⟩
          · rw [if_neg hv]
            have hh : readHeadersAux ((⟨[], ci.fin⟩ : ConnInput).data.length + 1)
                (⟨[], ci.fin⟩ : ConnInput) [] = .err ci.fin.toErr ⟨[], ci.fin⟩ := rfl
            rw [hh]
            exact .inr (.inl rfl)

/-- `readLineM` can only fail on an empty buffer; it then returns the
stream-end error and leaves the input unchanged. -/
theorem readLineM_error_data {ci : ConnInput} {e : ReqErr} {ci' : ConnInput}
    (h : readLineM ci = (.error e, ci')) :
    ci.data = [] ∧ e = ci.fin.toErr ∧ ci' = ci := by
  unfold readLineM at h
  rcases ht : takeLine ci.data with _ | ⟨l, rest⟩ <;> rw [ht] at h <;> dsimp only at h
  · rcases hd : ci.data with _ | ⟨c, cs⟩ <;> rw [hd] at h <;> dsimp only at h
    · injection h with h1 h2
      injection h1 with h1
      exact ⟨rfl, h1.symm, h2.symm⟩
    · simp at h
  · simp at h

/-- `readLineM` preserves the stream-end marker of the input. -/
theorem readLineM_fin {ci : ConnInput} {r : Except ReqErr String} {ci' : ConnInput}
    (h : readLineM ci = (r, ci')) : ci'.fin = ci.fin := by
  unfold readLineM at h
  rcases ht : takeLine ci.data with _ | ⟨l, rest⟩ <;> rw [ht] at h <;> dsimp only at h
  · rcases hd : ci.data with _ | ⟨c, cs⟩ <;> rw [hd] at h <;> dsimp only at h <;>
      injection h with h1 h2 <;> rw [← h2]
  · injection h with h1 h2
    rw [← h2]

/-- An error escaping the header loop is either a `fmt.Errorf` bad-request
error or the stream-end error of the loop's input. -/
theorem readHeadersAux_err_shape :
    ∀ (fuel : Nat) (ci : ConnInput) (hs : List (String × String)) (e : ReqErr)
      (rest : ConnInput), readHeadersAux fuel ci hs = .err e rest →
      (∃ msg, e = .bad msg) ∨ e = ci.fin.toErr := by
  intro fuel
  induction fuel with
  | zero => intro ci hs e rest h; rw [readHeadersAux] at h; simp at h
  | succ fuel ih =>
    intro ci hs e rest h
    rw [readHeadersAux] at h
    rcases hl : readLineM ci with ⟨r, ci₁⟩
    rw [hl] at h
    rcases r with e' | line <;> dsimp only at h
    · obtain ⟨-, he', -⟩ := readLineM_error_data hl
      injection h with h1 h2
      exact Or.inr (by rw [← h1]; exact he')
    · by_cases hline : line = ""
      · rw [if_pos hline] at h
        simp at h
      · rw [if_neg hline] at h
        by_cases hcol : line.toList.contains ':' = true
        · rw [if_pos hcol] at h
          rcases ih ci₁ _ e rest h with hbad | htoerr
          · exact Or.inl hbad
          · exact Or.inr (by rw [htoerr, readLineM_fin hl])
        · rw [if_neg hcol] at h
          injection h with h1 h2
          exact Or.inl ⟨_, h1.symm⟩

/-- Once at least one byte of a request has been read (nonempty buffered
data), every `readRequest` error carries `noReq = false` and is either a
`fmt.Errorf` bad-request error or the input's stream-end error — so on the
timeout path the handler never takes the silent-close branch. -/
theorem readRequest_err_of_ne {ci : ConnInput} (hne : ci.data ≠ []) {nr : Bool}
    {e : ReqErr} {rest : ConnInput} (h : readRequest ci = .err nr e rest) :
    nr = false ∧ ((∃ msg, e = .bad msg) ∨ e = ci.fin.toErr) := by
  unfold readRequest at h
  rcases hl : readLineM ci with ⟨r, ci₁⟩
  rw [hl] at h
  rcases r with e' | line <;> dsimp only at h
  · exact absurd (readLineM_error_data hl).1 hne
  · rcases hp : parseRequestLine line with msg | sl <;> rw [hp] at h <;> dsimp only at h
    · injection h with h1 h2 h3
      exact ⟨h1.symm, Or.inl ⟨_, h2.symm⟩⟩
    · by_cases hm : sl.getD 0 "" = "GET"
      · rw [if_neg (not_not_intro hm)] at h
        rcases hu : (sl.getD 1 "").toList with _ | ⟨c, cs⟩ <;> rw [hu] at h <;>
          dsimp only at h
        · simp at h
        · by_cases hc : c = '/'
          · rw [if_neg (not_not_intro hc)] at h
            by_cases hpr : sl.getD 2 "" = "HTTP/1.1"
            · rw [if_neg (not_not_intro hpr)] at h
              rcases hh : readHeadersAux (ci₁.data.length + 1) ci₁ [] with
                  ⟨hs, rest'⟩ | ⟨e₂, rest'⟩ | _ <;> rw [hh] at h <;> dsimp only at h
              · rcases hg : hget hs "Host" with _ | hv <;> rw [hg] at h <;> dsimp only at h
                · injection h with h1 h2 h3
                  exact ⟨h1.symm, Or.inl ⟨_, h2.symm⟩⟩
                · simp at h
              · injection h with h1 h2 h3
                rcases readHeadersAux_err_shape _ _ _ _ _ hh with hbad | htoerr
                · exact ⟨h1.symm, Or.inl (h2 ▸ hbad)⟩
                · exact ⟨h1.symm, Or.inr (by rw [← h2, htoerr, readLineM_fin hl])⟩
              · exact absurd hh (readHeadersAux_ne_fuelOut _ _ _ (by omega))
            · rw [if_pos hpr] at h
              injection h with h1 h2 h3
              exact ⟨h1.symm, Or.inl ⟨_, h2.symm⟩⟩
          · rw [if_pos hc] at h
            injection h with h1 h2 h3
            exact ⟨h1.symm, Or.inl ⟨_, h2.symm⟩⟩
      · rw [if_pos hm] at h
        injection h with h1 h2 h3
        exact ⟨h1.symm, Or.inl ⟨_, h2.symm⟩⟩

/-- Claim C3 (amended): on deadline expiry, the handler closes silently when
no bytes of a new request had been read (`readRequest` then reports a
timeout with `noReq = true`, which happens exactly when the remaining data
is empty), and writes exactly one `400 Bad Request` response before closing
whenever a partial request was in progress — any nonempty buffered data on
which `readRequest` does not complete a request, whether the partial tail is
a first request line with no newline yet, or complete lines followed by a
partial (e.g. colon-less) header line surfaced as a parse error — except
that a partial first line whose whitespace-split has an empty second field
panics the parser (claim C9) and nothing is written. -/
theorem c3_deadline_behavior (env : Env) (cfg : ServerCfg) (ci : ConnInput)
    (hfin : ci.fin = .timeout) :
    (ci.data = [] → handleConn env cfg ci = .ok []) ∧
    (∀ rest, readRequest ci = .err false .timeout rest →
      handleConn env cfg ci = .ok [Response.handleBadRequest env {} none]) ∧
    (ci.data ≠ [] → '\n' ∉ ci.data → readRequest ci ≠ .crash →
      handleConn env cfg ci = .ok [Response.handleBadRequest env {} none]) ∧
    (ci.data ≠ [] → ∀ nr e rest, readRequest ci = .err nr e rest →
      handleConn env cfg ci = .ok [Response.handleBadRequest env {} none]) ∧
    (ci.data ≠ [] → readRequest ci ≠ .crash →
      (∀ req rest, readRequest ci ≠ .ok req rest) →
      handleConn env cfg ci = .ok [Response.handleBadRequest env {} none]) ∧
    (Response.handleBadRequest env {} none).statusCode = 400 ∧
    hget (Response.handleBadRequest env {} none).headers "Connection" = some "close" := by
  have key : ci.data ≠ [] → ∀ (nr : Bool) (e : ReqErr) (rest : ConnInput),
      readRequest ci = .err nr e rest →
      handleConn env cfg ci = .ok [Response.handleBadRequest env {} none] := by
    intro hne nr e rest h
    obtain ⟨hnr, hbe⟩ := readRequest_err_of_ne hne h
    subst hnr
    rcases hbe with ⟨msg, rfl⟩ | rfl
    · exact handleConn_of_bad h
    · rw [hfin] at h
      dsimp only [StreamEnd.toErr] at h
      simpa using handleConn_of_timeout h
  refine ⟨?_, ?_, ?_, key, ?_, rfl, hget_handleBadRequest_connection env⟩
  · intro hd
    have h := @readRequest_nil ci hd
    rw [hfin] at h
    simpa using handleConn_of_timeout h
  · intro rest h
    simpa using handleConn_of_timeout h
  · intro hne hnl hcr
    rcases readRequest_partial_line hne hnl with ⟨msg, h⟩ | h | h
    · exact handleConn_of_bad h
    · rw [hfin] at h
      simpa using handleConn_of_timeout h
    · exact absurd h hcr
  · intro hne hcr hok
    rcases hr : readRequest ci with ⟨req, rest⟩ | ⟨nr, e, rest⟩ | _
    · exact absurd hr (hok req rest)
    · exact key hne nr e rest hr
    · exact absurd hr hcr

/-- Witness for C3: the deadline expires with a complete request line plus
the partial header line `Hos` in the buffer; `readRequest` surfaces the
swallowed partial line as an invalid-header parse error and the handler
writes exactly the `400` response and closes. -/
theorem c3_witness :
    readRequest ⟨("GET / HTTP/1.1\r\nHos").toList, .timeout⟩ =
      .err false (.bad "400: Invalid header") ⟨[], .timeout⟩ ∧
    handleConn envNone cfgExample ⟨("GET / HTTP/1.1\r\nHos").toList, .timeout⟩ =
      .ok [Response.handleBadRequest envNone {} none] :=
  ⟨by decide,
    (c3_deadline_behavior envNone cfgExample _ rfl).2.2.2.1 (by decide) false
      (.bad "400: Invalid header") ⟨[], .timeout⟩ (by decide)⟩

/-- Claim C3, counterexample: the deadline expires while the partial first
request line `GET  HTTP/1.1` is in progress.  The claim says the handler
builds and writes a `400 BadRequest` response; in fact the swallowed partial
line splits into three fields with an empty target, the parser panics at
`req.URL[0]`, and nothing is written. -/
theorem c3_counterexample :
    readRequest ⟨("GET  HTTP/1.1").toList, .timeout⟩ = .crash ∧
    handleConn envNone cfgExample ⟨("GET  HTTP/1.1").toList, .timeout⟩ =
      .error .indexOutOfRange := by
  refine ⟨by decide, by rfl⟩

/-- Claim C1 (confirmed): for a validated request (target begins with `/`),
whenever `filepath.Rel(docroot, filepath.Join(docroot, target))` errors or
yields a relative location outside the base directory (the code's test:
a `..` prefix), `handleGoodRequest` produces the `404 Not Found` response
with no file body — never a `200`.  The target used is the request target
with the index document appended when it ends in `/`. -/
theorem c1_traversal_not_found (env : Env) (cfg : ServerCfg) (req : Request)
    (hpfx : goHasPrefix req.URL "/" = true)
    (hout :
      (∃ e, goRel (hgetD cfg.vhosts req.Host "")
          (goJoin (hgetD cfg.vhosts req.Host "")
            (if req.URL.toList.getLast? = some '/' then req.URL ++ "index.html"
             else req.URL)) = .error e) ∨
      (∃ r, goRel (hgetD cfg.vhosts req.Host "")
          (goJoin (hgetD cfg.vhosts req.Host "")
            (if req.URL.toList.getLast? = some '/' then req.URL ++ "index.html"
             else req.URL)) = .ok r ∧ goHasPrefix r ".." = true)) :
    ∃ res, handleGoodRequest env cfg req = .ok res ∧ res.statusCode = 404 ∧
      res.filePath = "" ∧ res.statusCode ≠ 200 := by
  rcases hgl : req.URL.toList.getLast? with _ | c
  · exfalso
    unfold goHasPrefix at hpfx
    rcases hd : req.URL.toList with _ | ⟨x, xs⟩
    · rw [hd] at hpfx; simp [List.isPrefixOf] at hpfx
    · rw [hd] at hgl; simp at hgl
  · rw [hgl] at hout
    unfold handleGoodRequest
    rw [hgl]
    dsimp only
    by_cases hsl : c = '/'
    · rw [if_pos (show some c = some '/' by rw [hsl])] at hout
      rw [if_pos hsl]
      rcases hout with ⟨e, he⟩ | ⟨r, hr, hpre⟩
      · rw [he]
        exact ⟨_, rfl, rfl, rfl, show (404 : Nat) ≠ 200 by decide⟩
      · rw [hr]
        dsimp only
        rw [if_pos hpre]
        exact ⟨_, rfl, rfl, rfl, show (404 : Nat) ≠ 200 by decide⟩
    · rw [if_neg (show ¬ some c = some '/' by simpa using hsl)] at hout
      rw [if_neg hsl]
      rcases hout with ⟨e, he⟩ | ⟨r, hr, hpre⟩
      · rw [he]
        exact ⟨_, rfl, rfl, rfl, show (404 : Nat) ≠ 200 by decide⟩
      · rw [hr]
        dsimp only
        rw [if_pos hpre]
        exact ⟨_, rfl, rfl, rfl, show (404 : Nat) ≠ 200 by decide⟩

/-- Witness for C1: the spec's security example — target `/../../etc/passwd`
against base directory `/srv/www` joins to `/etc/passwd`, whose relative
location `../../etc/passwd` is outside the base, and resolves to `404`. -/
theorem c1_witness :
    ∃ res, handleGoodRequest envNone cfgExample
      { Method := "GET", URL := "/../../etc/passwd", Proto := "HTTP/1.1",
        Headers := [("Host", "example.com")], Host := "example.com", Close := false } =
        .ok res ∧ res.statusCode = 404 ∧ res.filePath = "" ∧ res.statusCode ≠ 200 :=
  c1_traversal_not_found envNone cfgExample _ (by decide)
    (Or.inr ⟨"../../etc/passwd", by rfl, by decide⟩)

/-! ## Lookup/update lemmas for the header map -/

theorem find?_key_filter (m : List (String × String)) (k k' : String) (hne : k' ≠ k) :
    (m.filter (fun p => p.1 ≠ k')).find? (fun p => p.1 == k) =
      m.find? (fun p => p.1 == k) := by
  induction m with
  | nil => rfl
  | cons p m ih =>
    rw [List.filter_cons]
    by_cases hp : p.1 = k'
    · rw [if_neg (by simp [hp])]
      rw [ih]
      have hb : (p.1 == k) = false := by simp [hp, hne]
      simp [List.find?_cons, hb]
    · rw [if_pos (by simp [hp])]
      rcases hb : (p.1 == k) with _ | _
      · simp only [List.find?_cons, hb]
        exact ih
      · simp only [List.find?_cons, hb]

theorem hget_hset_self (m : List (String × String)) (k v : String) :
    hget (hset m k v) k = some v := by
  unfold hget hset
  rw [List.find?_append]
  have h1 : (m.filter (fun p => p.1 ≠ k)).find? (fun p => p.1 == k) = none := by
    rw [List.find?_eq_none]
    intro x hx
    have hm := List.mem_filter.mp hx
    simpa using of_decide_eq_true hm.2
  rw [h1]
  simp [List.find?]

theorem hget_hset_ne (m : List (String × String)) (k k' v : String) (hne : k' ≠ k) :
    hget (hset m k' v) k = hget m k := by
  unfold hget hset
  rw [List.find?_append]
  have h2 : List.find? (fun p => p.1 == k) [(k', v)] = none := by
    have hb : (k' == k) = false := by simp [hne]
    simp [List.find?, hb]
  rw [h2, Option.or_none, find?_key_filter m k k' hne]

/-! ## Invariants of a successfully parsed request -/

theorem readRequest_ok_inv {ci : ConnInput} {req : Request} {rest : ConnInput}
    (h : readRequest ci = .ok req rest) :
    req.Method = "GET" ∧ goHasPrefix req.URL "/" = true ∧ req.Proto = "HTTP/1.1" ∧
    hget req.Headers "Host" = some req.Host ∧
    (req.Close = true ↔ hget req.Headers "Connection" = some "close") := by
  unfold readRequest at h
  rcases hr : readLineM ci with ⟨resu, ci₁⟩
  rw [hr] at h
  rcases resu with e | line
  · simp at h
  · dsimp only at h
    rcases hp : parseRequestLine line with e | startLine <;> rw [hp] at h
    · simp at h
    · dsimp only at h
      by_cases hm : startLine.getD 0 "" ≠ "GET"
      · rw [if_pos hm] at h; simp at h
      · rw [if_neg hm] at h
        rcases hu : (startLine.getD 1 "").toList with _ | ⟨c, cs⟩ <;> rw [hu] at h
        · simp at h
        · dsimp only at h
          by_cases hc : c ≠ '/'
          · rw [if_pos hc] at h; simp at h
          · rw [if_neg hc] at h
            by_cases hv : startLine.getD 2 "" ≠ "HTTP/1.1"
            · rw [if_pos hv] at h; simp at h
            · rw [if_neg hv] at h
              rcases hh : readHeadersAux (ci₁.data.length + 1) ci₁ [] with
                ⟨hs, rest'⟩ | ⟨e, rest'⟩ | _ <;> rw [hh] at h
              · dsimp only at h
                rcases hhost : hget hs "Host" with _ | v <;> rw [hhost] at h
                · simp at h
                · dsimp only at h
                  injection h with h1 h2
                  rw [← h1]
                  push_neg at hm hv hc
                  refine ⟨hm, ?_, hv, ?_, ?_⟩
                  · show goHasPrefix (startLine.getD 1 "") "/" = true
                    unfold goHasPrefix
                    rw [hu, hc]
                    rw [show ("/" : String).toList = ['/'] from by decide]
                    simp [List.isPrefixOf]
                  · exact hhost
                  · show ((match hget hs "Connection" with
                      | some v => v == "close"
                      | none => false) = true) ↔ hget hs "Connection" = some "close"
                    rcases hcn : hget hs "Connection" with _ | w
                    · simp
                    · simp
              · simp at h
              · simp at h

theorem init_connection_close (env : Env) (r : Response) (q : Request)
    (hq : q.Close = true) :
    hget (Response.init env r (some q)).headers "Connection" = some "close" := by
  simp only [Response.init, hq, if_true]
  exact hget_hset_self _ _ _

theorem handleGoodRequest_close {env : Env} {cfg : ServerCfg} {req : Request} {res : Response}
    (hg : handleGoodRequest env cfg req = .ok res) (hcl : req.Close = true) :
    hget res.headers "Connection" = some "close" := by
  unfold handleGoodRequest at hg
  rcases hgl : req.URL.toList.getLast? with _ | c <;> rw [hgl] at hg
  · simp at hg
  · dsimp only at hg
    generalize hqe : (if c = '/' then { req with URL := req.URL ++ "index.html" } else req) = q
      at hg
    have hcl' : q.Close = true := by
      rw [← hqe]
      by_cases hsl : c = '/' <;> simp [hsl, hcl]
    generalize (hgetD cfg.vhosts q.Host "") = docroot at hg
    generalize (goJoin docroot q.URL) = path at hg
    rcases hrel : goRel docroot path with e | r <;> rw [hrel] at hg
    · simp only [Except.ok.injEq] at hg
      rw [← hg]
      show hget (Response.init env {} (some q)).headers "Connection" = some "close"
      exact init_connection_close env {} q hcl'
    · dsimp only at hg
      by_cases hpre : goHasPrefix r ".." = true
      · rw [if_pos hpre] at hg
        simp only [Except.ok.injEq] at hg
        rw [← hg]
        show hget (Response.init env {} (some q)).headers "Connection" = some "close"
        exact init_connection_close env {} q hcl'
      · rw [if_neg hpre] at hg
        rcases hstat : env.stat path with se | fi <;> rw [hstat] at hg
        · rcases se
          · simp only [Except.ok.injEq] at hg
            rw [← hg]
            show hget (Response.init env {} (some q)).headers "Connection" = some "close"
            exact init_connection_close env {} q hcl'
          · simp at hg
        · dsimp only at hg
          by_cases hdir : fi.isDir = true
          · rw [if_pos hdir] at hg
            simp only [Except.ok.injEq] at hg
            rw [← hg]
            show hget (Response.init env {} (some q)).headers "Connection" = some "close"
            exact init_connection_close env {} q hcl'
          · rw [if_neg hdir] at hg
            simp only [Response.handleOK, Response.init] at hg
            rcases hstat2 : env.stat path with se | fi2 <;> rw [hstat2] at hg
            · simp at hg
            · simp only [Except.ok.injEq] at hg
              rw [← hg]
              simp only [hcl', if_true]
              rw [hget_hset_ne _ _ _ _ (by decide), hget_hset_ne _ _ _ _ (by decide),
                hget_hset_ne _ _ _ _ (by decide)]
              exact hget_hset_self _ _ _

/-- Claim C7 (confirmed): after a fully valid request, the handler is
persistent by default — when the request's `Connection` header is absent or
its value is not (case-sensitively) `close`, the parsed `Close` flag is
false and the handler loops back, processing the remaining input as further
requests; when the value is exactly `close`, the written response carries a
`Connection: close` header and the handler closes immediately after writing
it (that response is the last write of the connection). -/
theorem c7_connection_lifecycle (env : Env) (cfg : ServerCfg) (ci : ConnInput)
    (req : Request) (rest : ConnInput) (res : Response)
    (h : readRequest ci = .ok req rest)
    (hg : handleGoodRequest env cfg req = .ok res) :
    (hget req.Headers "Connection" ≠ some "close" →
      handleConn env cfg ci = (handleConn env cfg rest).map (res :: ·)) ∧
    (hget req.Headers "Connection" = some "close" →
      handleConn env cfg ci = .ok [res] ∧
      hget res.headers "Connection" = some "close") := by
  have hinv := readRequest_ok_inv h
  have hstep := handleConn_of_ok h hg
  constructor
  · intro hnc
    have hcl : req.Close = false := by
      by_cases hb : req.Close = true
      · exact absurd (hinv.2.2.2.2.mp hb) hnc
      · simpa using hb
    rw [hstep, if_neg (by simp [hcl])]
  · intro hc
    have hcl : req.Close = true := hinv.2.2.2.2.mpr hc
    refine ⟨by rw [hstep, if_pos hcl], handleGoodRequest_close hg hcl⟩

/-- Witness for C7: on one connection, a request without a `Connection`
header is followed by a second one with `Connection: close`; the handler
serves both (persistence after the first) and the second response carries
`Connection: close` and ends the connection. -/
theorem c7_witness :
    (handleConn envFile cfgExample
        ⟨("GET /x HTTP/1.1\r\nHost: example.com\r\n\r\nGET /x HTTP/1.1\r\nHost: example.com\r\nConnection: close\r\n\r\n").toList, .eof⟩ =
      (handleConn envFile cfgExample
        ⟨("GET /x HTTP/1.1\r\nHost: example.com\r\nConnection: close\r\n\r\n").toList, .eof⟩).map
        (fun rs =>
          (Response.handleOK envFile { filePath := "/srv/www/x" }
            (some { Method := "GET", URL := "/x", Proto := "HTTP/1.1",
                    Headers := [("Host", "example.com")], Host := "example.com",
                    Close := false })).toOption.getD {} :: rs)) ∧
    (∃ res₂,
      handleConn envFile cfgExample
          ⟨("GET /x HTTP/1.1\r\nHost: example.com\r\nConnection: close\r\n\r\n").toList, .eof⟩ =
        .ok [res₂] ∧ hget res₂.headers "Connection" = some "close") := by
  constructor
  · have h := (c7_connection_lifecycle envFile cfgExample
      ⟨("GET /x HTTP/1.1\r\nHost: example.com\r\n\r\nGET /x HTTP/1.1\r\nHost: example.com\r\nConnection: close\r\n\r\n").toList, .eof⟩
      { Method := "GET", URL := "/x", Proto := "HTTP/1.1",
        Headers := [("Host", "example.com")], Host := "example.com", Close := false }
      ⟨("GET /x HTTP/1.1\r\nHost: example.com\r\nConnection: close\r\n\r\n").toList, .eof⟩
      ((Response.handleOK envFile { filePath := "/srv/www/x" }
        (some { Method := "GET", URL := "/x", Proto := "HTTP/1.1",
                Headers := [("Host", "example.com")], Host := "example.com",
                Close := false })).toOption.getD {})
      (by decide) (by rfl)).1 (by decide)
    exact h
  · refine ⟨_, (c7_connection_lifecycle envFile cfgExample
      ⟨("GET /x HTTP/1.1\r\nHost: example.com\r\nConnection: close\r\n\r\n").toList, .eof⟩
      { Method := "GET", URL := "/x", Proto := "HTTP/1.1",
        Headers := [("Host", "example.com"), ("Connection", "close")],
        Host := "example.com", Close := true }
      ⟨[], .eof⟩
      ((Response.handleOK envFile { filePath := "/srv/www/x" }
        (some { Method := "GET", URL := "/x", Proto := "HTTP/1.1",
                Headers := [("Host", "example.com"), ("Connection", "close")],
                Host := "example.com", Close := true })).toOption.getD {})
      (by decide) (by rfl)).2 (by decide)⟩

/-! ## Decimal round trip -/

theorem natDigitsRevAux_zero : ∀ fuel, natDigitsRevAux 0 fuel = [] := by
  intro fuel
  cases fuel <;> simp [natDigitsRevAux]

theorem natDigitsRevAux_lt10 :
    ∀ (fuel n : Nat), ∀ d ∈ natDigitsRevAux n fuel, d < 10 := by
  intro fuel
  induction fuel with
  | zero => intro n d hd; simp [natDigitsRevAux] at hd
  | succ fuel ih =>
    intro n d hd
    rw [natDigitsRevAux] at hd
    by_cases hn : n = 0
    · simp [hn] at hd
    · rw [if_neg hn] at hd
      rcases List.mem_cons.mp hd with h | h
      · omega
      · exact ih _ d h

theorem digitChar_facts : ∀ d, d < 10 →
    (digitChar d).isDigit = true ∧ (digitChar d).toNat - 48 = d ∧
    digitChar d ≠ '\r' ∧ digitChar d ≠ '\n' ∧ digitChar d ≠ ' ' ∧ digitChar d ≠ ':' := by
  decide

theorem parseDecAux_digits :
    ∀ (ds : List Nat) (acc : Nat), (∀ d ∈ ds, d < 10) →
      parseDecAux acc (ds.map digitChar) =
        some (ds.foldl (fun a d => a * 10 + d) acc) := by
  intro ds
  induction ds with
  | nil => intro acc _; rfl
  | cons d ds ih =>
    intro acc hds
    have hd : d < 10 := hds d (by simp)
    have hf := digitChar_facts d hd
    rw [List.map_cons, parseDecAux, if_pos hf.1, hf.2.1, List.foldl_cons]
    exact ih _ (fun x hx => hds x (by simp [hx]))

theorem natDigitsRevAux_foldl :
    ∀ (fuel n : Nat), 0 < n → n < fuel → ∀ acc,
      List.foldl (fun a d => a * 10 + d) acc (natDigitsRevAux n fuel).reverse =
        acc * 10 ^ (natDigitsRevAux n fuel).length + n := by
  intro fuel
  induction fuel with
  | zero => intro n h0 hf; omega
  | succ fuel ih =>
    intro n h0 hf acc
    rw [natDigitsRevAux, if_neg (by omega)]
    by_cases hq : n / 10 = 0
    · rw [hq, natDigitsRevAux_zero]
      simp
      omega
    · rw [List.reverse_cons, List.foldl_append]
      rw [ih (n / 10) (by omega) (by omega) acc]
      simp only [List.foldl_cons, List.foldl_nil, List.length_cons]
      have : n % 10 + 10 * (n / 10) = n := Nat.mod_add_div n 10
      ring_nf
      omega

theorem parseDec_natToStr (n : Nat) : parseDec (natToStr n).toList = some n := by
  by_cases hn : n = 0
  · rw [hn]; decide
  · unfold natToStr
    rw [if_neg hn]
    have hlist : (ofChars ((natDigitsRevAux n (n + 1)).reverse.map digitChar)).toList =
        (natDigitsRevAux n (n + 1)).reverse.map digitChar := rfl
    rw [hlist]
    have hne : natDigitsRevAux n (n + 1) ≠ [] := by
      rw [natDigitsRevAux, if_neg hn]
      simp
    unfold parseDec
    rcases hl : (natDigitsRevAux n (n + 1)).reverse.map digitChar with _ | ⟨x, xs⟩
    · exfalso
      apply hne
      have := congrArg List.length hl
      simp at this
      exact this
    · dsimp only
      rw [← hl]
      have hdig : ∀ d ∈ (natDigitsRevAux n (n + 1)).reverse, d < 10 := by
        intro d hd
        exact natDigitsRevAux_lt10 (n + 1) n d (List.mem_reverse.mp hd)
      rw [parseDecAux_digits _ 0 hdig]
      rw [natDigitsRevAux_foldl (n + 1) n (by omega) (by omega) 0]
      simp

/-! ## Splitting an emitted line back off the stream -/

theorem splitCRLF_cons_ne (c : Char) (cs : List Char) (hc : c ≠ '\r') :
    splitCRLF (c :: cs) =
      match splitCRLF cs with
      | [] => [[c]]
      | l :: ls => (c :: l) :: ls := by
  rw [splitCRLF.eq_def]
  split
  · simp_all
  · rename_i heq
    injection heq with h1 h2
    exact absurd h1 hc
  · rename_i x rest heq
    injection heq with h1 h2
    rw [h1, h2]

theorem splitCRLF_append (l : List Char) (rest : List Char) (hl : '\r' ∉ l) :
    splitCRLF (l ++ '\r' :: '\n' :: rest) = l :: splitCRLF rest := by
  induction l with
  | nil => rfl
  | cons c cs ih =>
    have hc : c ≠ '\r' := by
      intro h
      exact hl (by simp [h])
    rw [List.cons_append, splitCRLF_cons_ne c _ hc,
      ih (fun h => hl (List.mem_cons_of_mem c h))]

theorem splitChar_cons_ne (sep c : Char) (cs : List Char) (hc : c ≠ sep) :
    splitChar sep (c :: cs) =
      match splitChar sep cs with
      | [] => [[c]]
      | l :: ls => (c :: l) :: ls := by
  rw [splitChar, if_neg hc]

theorem splitChar_cons_eq (sep : Char) (cs : List Char) :
    splitChar sep (sep :: cs) = [] :: splitChar sep cs := by
  rw [splitChar, if_pos rfl]

theorem splitChar_append (sep : Char) (l rest : List Char) (hl : sep ∉ l) :
    splitChar sep (l ++ sep :: rest) = l :: splitChar sep rest := by
  induction l with
  | nil => exact splitChar_cons_eq sep rest
  | cons c cs ih =>
    have hc : c ≠ sep := by
      intro h
      exact hl (by simp [h])
    rw [List.cons_append, splitChar_cons_ne sep c _ hc,
      ih (fun h => hl (List.mem_cons_of_mem c h))]

theorem splitFirstColon_append (k rest : List Char) (hk : ':' ∉ k) :
    splitFirstColon (k ++ ':' :: rest) = some (k, rest) := by
  induction k with
  | nil => rw [List.nil_append, splitFirstColon, if_pos rfl]
  | cons c cs ih =>
    have hc : c ≠ ':' := by
      intro h
      exact hk (by simp [h])
    rw [List.cons_append, splitFirstColon, if_neg hc,
      ih (fun h => hk (List.mem_cons_of_mem c h))]
    rfl

theorem dropWhile_space_of_head (l : List Char) (h : l.head? ≠ some ' ') :
    l.dropWhile (· == ' ') = l := by
  rcases l with _ | ⟨c, cs⟩
  · rfl
  · have hc : c ≠ ' ' := by
      intro hceq
      exact h (by rw [hceq]; rfl)
    rw [List.dropWhile_cons_of_neg (by simpa using hc)]

/-! ## Sorting lemmas -/

theorem charsLe_total : ∀ (a b : List Char), charsLe a b = true ∨ charsLe b a = true := by
  intro a
  induction a with
  | nil => intro b; left; rfl
  | cons x xs ih =>
    intro b
    rcases b with _ | ⟨y, ys⟩
    · right; rfl
    · by_cases hxy : x = y
      · rcases ih ys with h | h
        · left; rw [charsLe, if_pos hxy]; exact h
        · right; rw [charsLe, if_pos hxy.symm]; exact h
      · rcases lt_trichotomy x y with h | h | h
        · left; rw [charsLe, if_neg hxy]; simpa using h
        · exact absurd h hxy
        · right; rw [charsLe, if_neg (Ne.symm hxy)]; simpa using h

theorem strLe_total (a b : String) : strLe a b = true ∨ strLe b a = true :=
  charsLe_total a.toList b.toList

theorem insertKey_perm (k : String) : ∀ l : List String, (insertKey k l).Perm (k :: l) := by
  intro l
  induction l with
  | nil => exact List.Perm.refl _
  | cons x xs ih =>
    rw [insertKey]
    by_cases h : strLe k x = true
    · rw [if_pos h]
    · rw [if_neg h]
      exact ((ih.cons x).trans (List.Perm.swap k x xs))

theorem sortKeys_perm : ∀ l : List String, (sortKeys l).Perm l := by
  intro l
  induction l with
  | nil => exact List.Perm.refl _
  | cons x xs ih =>
    rw [sortKeys]
    exact (insertKey_perm x (sortKeys xs)).trans (ih.cons x)

theorem mem_sortKeys {k : String} {l : List String} : k ∈ sortKeys l ↔ k ∈ l :=
  (sortKeys_perm l).mem_iff

theorem keysSorted_cons_of (x : String) (l : List String) (hl : keysSorted l = true)
    (hx : ∀ y, l.head? = some y → strLe x y = true) : keysSorted (x :: l) = true := by
  rcases l with _ | ⟨y, ys⟩
  · rfl
  · rw [keysSorted]
    rw [hx y rfl, hl]
    rfl

theorem insertKey_head (k : String) (l : List String) :
    (insertKey k l).head? = some k ∨ (insertKey k l).head? = l.head? := by
  rcases l with _ | ⟨x, xs⟩
  · left; rfl
  · rw [insertKey]
    by_cases h : strLe k x = true
    · rw [if_pos h]; left; rfl
    · rw [if_neg h]; right; rfl

theorem keysSorted_insertKey (k : String) :
    ∀ l : List String, keysSorted l = true → keysSorted (insertKey k l) = true := by
  intro l
  induction l with
  | nil => intro _; rfl
  | cons x xs ih =>
    intro hs
    have hxs : keysSorted xs = true := by
      rcases xs with _ | ⟨y, ys⟩
      · rfl
      · rw [keysSorted] at hs
        exact (Bool.and_eq_true_iff.mp hs).2
    rw [insertKey]
    by_cases h : strLe k x = true
    · rw [if_pos h]
      exact keysSorted_cons_of k (x :: xs) hs (fun y hy => by
        injection hy with hy
        rw [← hy]; exact h)
    · rw [if_neg h]
      have hxk : strLe x k = true := by
        rcases strLe_total k x with h' | h'
        · exact absurd h' h
        · exact h'
      refine keysSorted_cons_of x (insertKey k xs) (ih hxs) ?_
      intro y hy
      rcases insertKey_head k xs with hh | hh
      · rw [hh] at hy
        injection hy with hy
        rw [← hy]; exact hxk
      · rw [hh] at hy
        rcases xs with _ | ⟨z, zs⟩
        · simp at hy
        · injection hy with hy
          rw [← hy]
        -- strLe x z from the sortedness of x :: z :: zs
          rw [keysSorted] at hs
          exact (Bool.and_eq_true_iff.mp hs).1

theorem keysSorted_sortKeys : ∀ l : List String, keysSorted (sortKeys l) = true := by
  intro l
  induction l with
  | nil => rfl
  | cons x xs ih =>
    rw [sortKeys]
    exact keysSorted_insertKey x (sortKeys xs) ih

/-! ## Recovering the header map from the emitted pairs -/

theorem hget_map_pairs (f : String → String) :
    ∀ (l : List String) (k : String),
      hget (l.map (fun k' => (k', f k'))) k = if k ∈ l then some (f k) else none := by
  intro l
  induction l with
  | nil => intro k; simp [hget]
  | cons x xs ih =>
    intro k
    by_cases hx : x = k
    · rw [hx]
      simp [hget, List.find?_cons]
    · rw [List.map_cons]
      unfold hget at ih ⊢
      rw [List.find?_cons_of_neg _ (by simpa using hx)]
      rw [ih k]
      have hmem : (k ∈ x :: xs) ↔ (k ∈ xs) := by
        simp [List.mem_cons, Ne.symm hx]
      rw [if_congr hmem rfl rfl]

theorem hget_eq_none_of_not_mem {m : List (String × String)} {k : String}
    (h : k ∉ m.map (·.1)) : hget m k = none := by
  unfold hget
  rw [List.find?_eq_none.mpr]
  · rfl
  · intro p hp hbeq
    exact h (List.mem_map.mpr ⟨p, hp, by simpa using hbeq⟩)

theorem hget_isSome_of_mem {m : List (String × String)} {k : String}
    (h : k ∈ m.map (·.1)) : ∃ v, hget m k = some v := by
  obtain ⟨p, hp, hk⟩ := List.mem_map.mp h
  have : (m.find? (fun p => p.1 == k)).isSome := by
    rw [List.find?_isSome]
    exact ⟨p, hp, by simpa using hk⟩
  rcases hf : m.find? (fun p => p.1 == k) with _ | q
  · rw [hf] at this; simp at this
  · exact ⟨q.2, by unfold hget; rw [hf]; rfl⟩

theorem hget_mem {m : List (String × String)} {k v : String}
    (h : hget m k = some v) : (k, v) ∈ m := by
  unfold hget at h
  rcases hf : m.find? (fun p => p.1 == k) with _ | q
  · rw [hf] at h; simp at h
  · rw [hf] at h
    simp at h
    have hq := List.mem_of_find?_eq_some hf
    have hkey : q.1 = k := by
      have := List.find?_some hf
      simpa using this
    have : q = (k, v) := by
      rcases q with ⟨q1, q2⟩
      simp at hkey h
      rw [hkey, h]
    rw [← this]
    exact hq

theorem hget_sortedPairs (res : Response) (k : String) :
    hget (sortedPairs res) k = hget res.headers k := by
  unfold sortedPairs
  rw [hget_map_pairs]
  by_cases hmem : k ∈ sortKeys (res.headers.map (·.1))
  · rw [if_pos hmem]
    obtain ⟨v, hv⟩ := hget_isSome_of_mem (mem_sortKeys.mp hmem)
    rw [hv]
    unfold hgetD
    rw [hv]
    rfl
  · rw [if_neg hmem]
    rw [hget_eq_none_of_not_mem (fun h => hmem (mem_sortKeys.mpr h))]

theorem tl_append (a b : String) : (a ++ b).toList = a.toList ++ b.toList :=
  String.data_append a b

theorem natToStr_chars (n : Nat) :
    ∀ c ∈ (natToStr n).toList, c ≠ '\r' ∧ c ≠ '\n' ∧ c ≠ ' ' := by
  intro c hc
  by_cases hn : n = 0
  · rw [hn] at hc
    rw [show (natToStr 0).toList = ['0'] from by decide] at hc
    simp at hc
    rw [hc]
    refine ⟨by decide, by decide, by decide⟩
  · unfold natToStr at hc
    rw [if_neg hn] at hc
    have hc' : c ∈ (natDigitsRevAux n (n + 1)).reverse.map digitChar := hc
    obtain ⟨d, hd, hdc⟩ := List.mem_map.mp hc'
    have hd10 : d < 10 := natDigitsRevAux_lt10 (n + 1) n d (List.mem_reverse.mp hd)
    have hf := digitChar_facts d hd10
    rw [← hdc]
    exact ⟨hf.2.2.1, hf.2.2.2.1, hf.2.2.2.2.1⟩

theorem statusText_chars (n : Nat) :
    ∀ c ∈ (statusText n).toList, c ≠ '\r' ∧ c ≠ '\n' := by
  intro c hc
  unfold statusText at hc
  split at hc
  · have : c ∈ ("OK" : String).toList := hc
    fin_cases this <;> exact ⟨by decide, by decide⟩
  · split at hc
    · have : c ∈ ("Bad Request" : String).toList := hc
      fin_cases this <;> exact ⟨by decide, by decide⟩
    · split at hc
      · have : c ∈ ("Not Found" : String).toList := hc
        fin_cases this <;> exact ⟨by decide, by decide⟩
      · simp at hc

theorem reparseStatusCode_emitted (proto : String) (code : Nat) (reason : String)
    (hp : ' ' ∉ proto.toList) :
    reparseStatusCode
      (proto.toList ++ ' ' :: ((natToStr code).toList ++ ' ' :: reason.toList)) =
      some code := by
  unfold reparseStatusCode
  have hd : ' ' ∉ (natToStr code).toList := fun h => (natToStr_chars code ' ' h).2.2 rfl
  rw [splitChar_append ' ' proto.toList _ hp,
    splitChar_append ' ' (natToStr code).toList _ hd]
  exact parseDec_natToStr code

theorem reparse_headerLines (m : List (String × String)) :
    ∀ (ks : List String) (tail : List Char),
      (∀ k ∈ ks,
        ('\r' ∉ k.toList ∧ '\n' ∉ k.toList ∧ ':' ∉ k.toList) ∧
        ('\r' ∉ (hgetD m k "").toList ∧ '\n' ∉ (hgetD m k "").toList) ∧
        (hgetD m k "").toList.head? ≠ some ' ') →
      reparseHeaderBlock (splitCRLF ((headerLines m ks).toList ++ '\r' :: '\n' :: tail)) =
        some (ks.map (fun k => (k, hgetD m k ""))) := by
  intro ks
  induction ks with
  | nil =>
    intro tail _
    rw [show (headerLines m []).toList = ([] : List Char) from rfl, List.nil_append]
    rw [show ('\r' :: '\n' :: tail) = ([] ++ '\r' :: '\n' :: tail) from rfl,
      splitCRLF_append [] tail (by simp)]
    rfl
  | cons k ks ih =>
    intro tail h
    have hk := h k (by simp)
    have hline : (headerLines m (k :: ks)).toList ++ '\r' :: '\n' :: tail =
        (k.toList ++ ':' :: ' ' :: (hgetD m k "").toList) ++
          '\r' :: '\n' :: ((headerLines m ks).toList ++ '\r' :: '\n' :: tail) := by
      show (k ++ ": " ++ hgetD m k "" ++ "\r\n" ++ headerLines m ks).toList ++
        '\r' :: '\n' :: tail = _
      rw [tl_append, tl_append, tl_append, tl_append,
        show (": " : String).toList = [':', ' '] from by decide,
        show ("\r\n" : String).toList = ['\r', '\n'] from by decide]
      simp only [List.append_assoc, List.cons_append, List.nil_append]
    rw [hline]
    have hnoCR : '\r' ∉ k.toList ++ ':' :: ' ' :: (hgetD m k "").toList := by
      intro hmem
      rcases List.mem_append.mp hmem with hmem | hmem
      · exact hk.1.1 hmem
      · rcases List.mem_cons.mp hmem with hmem | hmem
        · exact absurd hmem.symm (by decide)
        · rcases List.mem_cons.mp hmem with hmem | hmem
          · exact absurd hmem.symm (by decide)
          · exact hk.2.1.1 hmem
    rw [splitCRLF_append _ _ hnoCR]
    rw [reparseHeaderBlock]
    rw [if_neg (by
      intro hnil
      have hlen := congrArg List.length hnil
      simp at hlen)]
    have hhl : reparseHeaderLine (k.toList ++ ':' :: ' ' :: (hgetD m k "").toList) =
        some (k, hgetD m k "") := by
      unfold reparseHeaderLine
      rw [splitFirstColon_append k.toList _ hk.1.2.2]
      dsimp only [Option.map]
      rw [List.dropWhile_cons_of_pos (by decide), dropWhile_space_of_head _ hk.2.2]
      rfl
    rw [hhl, ih tail (fun k' hk' => h k' (by simp [hk']))]
    rfl

/-- Claim C8 (confirmed): the writer emits the status line
`<version> <code> <reason>\r\n`, then every header as `<Key>: <Value>\r\n`
with the keys in lexicographically sorted order, then the terminating
`\r\n`, then the body; re-parsing the serialized status line and header
block per the wire format recovers exactly the status code and the header
set (the recovered association list has the sorted keys and looks up
identically to the response's header map). -/
theorem c8_write_reparse_roundtrip (env : Env) (res : Response) (hwf : wfResponse res) :
    writeResponse env res = writeStatusLine res ++ writeHeaders res ++ writeBody env res ∧
    reparseHead (writeResponse env res) = some (res.statusCode, sortedPairs res) ∧
    keysSorted ((sortedPairs res).map (·.1)) = true ∧
    (∀ k, hget (sortedPairs res) k = hget res.headers k) := by
  refine ⟨rfl, ?_, ?_, hget_sortedPairs res⟩
  · have hdecomp : (writeResponse env res).toList =
        (res.proto.toList ++ ' ' :: ((natToStr res.statusCode).toList ++ ' ' ::
          (statusText res.statusCode).toList)) ++ '\r' :: '\n' ::
          ((headerLines res.headers (sortKeys (res.headers.map (·.1)))).toList ++
            '\r' :: '\n' :: (writeBody env res).toList) := by
      simp only [writeResponse, writeStatusLine, writeHeaders, tl_append,
        show (" " : String).toList = [' '] from by decide,
        show ("\r\n" : String).toList = ['\r', '\n'] from by decide,
        List.append_assoc, List.cons_append, List.nil_append]
    have hslNoCR : '\r' ∉ res.proto.toList ++ ' ' :: ((natToStr res.statusCode).toList ++
        ' ' :: (statusText res.statusCode).toList) := by
      intro hmem
      rcases List.mem_append.mp hmem with hmem | hmem
      · exact (hwf.1 '\r' hmem).1 rfl
      · rcases List.mem_cons.mp hmem with hmem | hmem
        · exact absurd hmem.symm (by decide)
        · rcases List.mem_append.mp hmem with hmem | hmem
          · exact (natToStr_chars res.statusCode '\r' hmem).1 rfl
          · rcases List.mem_cons.mp hmem with hmem | hmem
            · exact absurd hmem.symm (by decide)
            · exact (statusText_chars res.statusCode '\r' hmem).1 rfl
    have hcond : ∀ k ∈ sortKeys (res.headers.map (·.1)),
        ('\r' ∉ k.toList ∧ '\n' ∉ k.toList ∧ ':' ∉ k.toList) ∧
        ('\r' ∉ (hgetD res.headers k "").toList ∧
          '\n' ∉ (hgetD res.headers k "").toList) ∧
        (hgetD res.headers k "").toList.head? ≠ some ' ' := by
      intro k hk
      obtain ⟨v, hv⟩ := hget_isSome_of_mem (mem_sortKeys.mp hk)
      have hmemp := hget_mem hv
      have hkv := hwf.2 (k, v) hmemp
      have hvD : hgetD res.headers k "" = v := by
        unfold hgetD
        rw [hv]
        rfl
      rw [hvD]
      exact hkv
    unfold reparseHead
    rw [hdecomp, splitCRLF_append _ _ hslNoCR]
    dsimp only
    rw [reparseStatusCode_emitted res.proto res.statusCode (statusText res.statusCode)
        (fun h => (hwf.1 ' ' h).2.2 rfl),
      reparse_headerLines res.headers (sortKeys (res.headers.map (·.1)))
        (writeBody env res).toList hcond]
    rfl
  · have hmap : (sortedPairs res).map (·.1) = sortKeys (res.headers.map (·.1)) := by
      unfold sortedPairs
      rw [List.map_map]
      rw [show ((fun (x : String × String) => x.1) ∘ fun k => (k, hgetD res.headers k "")) = id
        from funext fun k => rfl]
      exact List.map_id _
    rw [hmap]
    exact keysSorted_sortKeys _

/-- Witness for C8: the round trip applied to a concrete `400` response:
serializing and re-parsing recovers status code `400` and the header set
`Connection ↦ close`, `Date ↦ D`. -/
theorem c8_witness :
    reparseHead (writeResponse envNone
        { proto := "HTTP/1.1", statusCode := 400, statusText := "Bad Request",
          headers := [("Date", "D"), ("Connection", "close")], request := none,
          filePath := "" }) =
      some (400, sortedPairs
        { proto := "HTTP/1.1", statusCode := 400, statusText := "Bad Request",
          headers := [("Date", "D"), ("Connection", "close")], request := none,
          filePath := "" }) :=
  (c8_write_reparse_roundtrip envNone
    { proto := "HTTP/1.1", statusCode := 400, statusText := "Bad Request",
      headers := [("Date", "D"), ("Connection", "close")], request := none,
      filePath := "" } (by decide)).2.1

/-! ## Correspondence of the parser with the specification's contract -/

theorem splitChar_ne_nil (c : Char) : ∀ cs : List Char, splitChar c cs ≠ [] := by
  intro cs
  induction cs with
  | nil => simp [splitChar]
  | cons d rest ih =>
    rw [splitChar]
    by_cases hd : d = c
    · simp [hd]
    · rw [if_neg hd]
      rcases hsp : splitChar c rest with _ | ⟨l, ls⟩ <;> simp

theorem splitChar_head (c : Char) :
    ∀ cs : List Char, (splitChar c cs).headD [] = cs.takeWhile (· != c) := by
  intro cs
  induction cs with
  | nil => rfl
  | cons d rest ih =>
    by_cases hd : d = c
    · rw [splitChar, if_pos hd, List.takeWhile_cons]
      rw [show (d != c) = false by simp [hd]]
      rfl
    · rw [splitChar_cons_ne c d rest hd, List.takeWhile_cons]
      rw [show (d != c) = true by simp [hd]]
      rcases hsp : splitChar c rest with _ | ⟨l, ls⟩
      · exact absurd hsp (splitChar_ne_nil c rest)
      · rw [hsp] at ih
        simp only [List.headD_cons] at ih
        dsimp only
        rw [List.headD_cons, ih]
        simp

theorem goHasPrefix_slash_nil {s : String} (hs : s.toList = []) :
    goHasPrefix s "/" = false := by
  unfold goHasPrefix
  rw [hs, show ("/" : String).toList = ['/'] from by decide]
  rfl

theorem goHasPrefix_slash_cons {s : String} {c : Char} {cs : List Char}
    (hs : s.toList = c :: cs) : goHasPrefix s "/" = (c == '/') := by
  unfold goHasPrefix
  rw [hs, show ("/" : String).toList = ['/'] from by decide]
  by_cases hc : c = '/'
  · simp [List.isPrefixOf, hc]
  · simp [List.isPrefixOf, hc, Ne.symm hc]

theorem specHeaders_corr :
    ∀ (fuel : Nat) (ci : ConnInput) (hs : List (String × String)) (seen : Bool),
      ci.data.length < fuel →
      ((∃ v, hget hs "Host" = some v) ↔ seen = true) →
      (specHeadersAux fuel ci seen = .ok →
        ∃ hs' rest v, readHeadersAux fuel ci hs = .done hs' rest ∧
          hget hs' "Host" = some v) ∧
      (specHeadersAux fuel ci seen = .badReq .noHost →
        ∃ hs' rest, readHeadersAux fuel ci hs = .done hs' rest ∧
          hget hs' "Host" = none) ∧
      (specHeadersAux fuel ci seen = .badReq .headerNoColon →
        ∃ rest, readHeadersAux fuel ci hs = .err (.bad "400: Invalid header") rest) ∧
      (∀ r, specHeadersAux fuel ci seen = .badReq r →
        r = .noHost ∨ r = .headerNoColon) ∧
      (specHeadersAux fuel ci seen = .streamEnd →
        ∃ e rest, readHeadersAux fuel ci hs = .err e rest ∧
          (e = .eof ∨ e = .timeout)) := by
  intro fuel
  induction fuel with
  | zero =>
    intro ci hs seen hf
    omega
  | succ fuel ih =>
    intro ci hs seen hf hinv
    rw [specHeadersAux, readHeadersAux]
    rcases hr : readLineM ci with ⟨resu, ci'⟩
    rcases resu with e | line
    · obtain ⟨hd, hci, he⟩ := readLineM_err_rest hr
      dsimp only
      refine ⟨by intro h; simp at h, by intro h; simp at h, by intro h; simp at h,
        by intro r h; simp at h, ?_⟩
      intro _
      refine ⟨e, ci', rfl, ?_⟩
      rw [he]
      cases ci.fin
      · exact Or.inl rfl
      · exact Or.inr rfl
    · have hlen := readLineM_ok_length hr
      dsimp only
      by_cases h0 : line = ""
      · rw [if_pos h0, if_pos h0]
        by_cases hseen : seen = true
        · rw [hseen]
          refine ⟨?_, by intro h; simp at h, by intro h; simp at h,
            by intro r h; simp at h, by intro h; simp at h⟩
          intro _
          obtain ⟨v, hv⟩ := hinv.mpr hseen
          exact ⟨hs, ci', v, rfl, hv⟩
        · rw [show seen = false by simpa using hseen]
          refine ⟨by intro h; simp at h, ?_, by intro h; simp at h,
            by intro r h; simp at h; rw [← h]; exact Or.inl rfl, by intro h; simp at h⟩
          intro _
          refine ⟨hs, ci', rfl, ?_⟩
          rcases hh : hget hs "Host" with _ | v
          · rfl
          · exact absurd (hinv.mp ⟨v, hh⟩) hseen
      · rw [if_neg h0, if_neg h0]
        by_cases h1 : line.toList.contains ':' = true
        · rw [if_pos h1, if_pos h1]
          have hkey : canonicalHeaderKey (ofChars (line.toList.takeWhile (· != ':'))) =
              canonicalHeaderKey (ofChars ((splitChar ':' line.toList).headD [])) := by
            rw [splitChar_head]
          set key := canonicalHeaderKey (ofChars ((splitChar ':' line.toList).headD []))
            with hkdef
          set v := ofChars (((splitChar ':' line.toList).getD 1 []).dropWhile (· == ' '))
            with hvdef
          have hinv' : (∃ w, hget (hset hs key v) "Host" = some w) ↔
              (seen || (canonicalHeaderKey
                (ofChars (line.toList.takeWhile (· != ':'))) == "Host")) = true := by
            rw [hkey]
            by_cases hkh : key = "Host"
            · rw [hkh, hget_hset_self]
              simp
            · rw [hget_hset_ne _ _ _ _ hkh,
                show (key == "Host") = false from by simpa using hkh]
              simpa using hinv
          exact ih ci' (hset hs key v) _ (by omega) hinv'
        · rw [if_neg h1, if_neg h1]
          refine ⟨by intro h; simp at h, by intro h; simp at h, ?_,
            by intro r h; simp at h; rw [← h]; exact Or.inr rfl, by intro h; simp at h⟩
          intro _
          exact ⟨ci', rfl⟩

theorem c5_main (ci : ConnInput) :
    (match specParse ci with
      | .ok => ∃ req rest, readRequest ci = .ok req rest ∧ req.Method = "GET" ∧
          goHasPrefix req.URL "/" = true ∧ req.Proto = "HTTP/1.1" ∧
          hget req.Headers "Host" = some req.Host
      | .badReq r =>
          (∃ nr msg rest, readRequest ci = .err nr (.bad msg) rest) ∨
          (r = .badTarget ∧ readRequest ci = .crash ∧
            ∃ line ci₁ p, readLineM ci = (.ok line, ci₁) ∧
              splitN3Space line = ["GET", "", p])
      | .streamEnd =>
          ∃ nr e rest, readRequest ci = .err nr e rest ∧ (e = .eof ∨ e = .timeout)) := by
  rcases hr : readLineM ci with ⟨resu, ci₁⟩
  rcases resu with e | line
  · obtain ⟨hd, hci, he⟩ := readLineM_err_rest hr
    have hspec : specParse ci = .streamEnd := by
      unfold specParse; rw [hr]
    have hread : readRequest ci = .err true e ci₁ := by
      unfold readRequest; rw [hr]
    rw [hspec]
    refine ⟨true, e, ci₁, hread, ?_⟩
    rw [he]
    cases ci.fin
    · exact Or.inl rfl
    · exact Or.inr rfl
  · by_cases hlen : (splitN3Space line).length ≠ 3
    · have hparse : parseRequestLine line = .error "could not parse the request line" := by
        unfold parseRequestLine; rw [if_pos hlen]
      have hspec : specParse ci = .badReq .notThreeFields := by
        unfold specParse; rw [hr]; dsimp only; rw [if_pos hlen]
      have hread : readRequest ci =
          .err false (.bad "could not parse the request line") ci₁ := by
        unfold readRequest; rw [hr]; dsimp only; rw [hparse]
      rw [hspec]
      exact Or.inl ⟨false, _, ci₁, hread⟩
    · push_neg at hlen
      obtain ⟨a, b, c3, habc⟩ := List.length_eq_three.mp hlen
      have hparse : parseRequestLine line = .ok (splitN3Space line) := by
        unfold parseRequestLine; rw [if_neg (by simp [hlen])]
      have hget0 : (splitN3Space line).getD 0 "" = a := by rw [habc]; rfl
      have hget1 : (splitN3Space line).getD 1 "" = b := by rw [habc]; rfl
      by_cases hm : (splitN3Space line).getD 0 "" ≠ "GET"
      · have hspec : specParse ci = .badReq .badMethod := by
          unfold specParse; rw [hr]; dsimp only
          rw [if_neg (by simp [hlen]), if_pos hm]
        have hread : readRequest ci = .err false (.bad "400: Invalid method") ci₁ := by
          unfold readRequest; rw [hr]; dsimp only; rw [hparse]; dsimp only
          rw [if_pos hm]
        rw [hspec]
        exact Or.inl ⟨false, _, ci₁, hread⟩
      · push_neg at hm
        rcases hu : ((splitN3Space line).getD 1 "").toList with _ | ⟨uc, ucs⟩
        · have hpfx : goHasPrefix ((splitN3Space line).getD 1 "") "/" = false :=
            goHasPrefix_slash_nil hu
          have hspec : specParse ci = .badReq .badTarget := by
            unfold specParse; rw [hr]; dsimp only
            rw [if_neg (by simp [hlen]), if_neg (by rw [hm]; simp), if_pos hpfx]
          have hread : readRequest ci = .crash := by
            unfold readRequest; rw [hr]; dsimp only; rw [hparse]; dsimp only
            rw [if_neg (by rw [hm]; simp), hu]
          have hb : b = "" := by
            have hbt : b.toList = [] := by rw [← hget1]; exact hu
            rw [show b = ofChars b.toList from rfl, hbt]
            decide
          have hma : a = "GET" := by rw [← hget0]; exact hm
          rw [hspec]
          refine Or.inr ⟨rfl, hread, line, ci₁, c3, rfl, ?_⟩
          rw [habc, hma, hb]
        · by_cases hc : uc = '/'
          · have hpfx : goHasPrefix ((splitN3Space line).getD 1 "") "/" = true := by
              rw [goHasPrefix_slash_cons hu]
              simp [hc]
            by_cases hv : (splitN3Space line).getD 2 "" ≠ "HTTP/1.1"
            · have hspec : specParse ci = .badReq .badVersion := by
                unfold specParse; rw [hr]; dsimp only
                rw [if_neg (by simp [hlen]), if_neg (by rw [hm]; simp),
                  if_neg (by rw [hpfx]; simp), if_pos hv]
              have hread : readRequest ci = .err false (.bad "400: Invalid version") ci₁ := by
                unfold readRequest; rw [hr]; dsimp only; rw [hparse]; dsimp only
                rw [if_neg (by rw [hm]; simp), hu]; dsimp only
                rw [if_neg (by simp [hc]), if_pos hv]
              rw [hspec]
              exact Or.inl ⟨false, _, ci₁, hread⟩
            · have hspec : specParse ci = specHeadersAux (ci₁.data.length + 1) ci₁ false := by
                unfold specParse; rw [hr]; dsimp only
                rw [if_neg (by simp [hlen]), if_neg (by rw [hm]; simp),
                  if_neg (by rw [hpfx]; simp), if_neg hv]
              have hcorr := specHeaders_corr (ci₁.data.length + 1) ci₁ [] false (by omega)
                (by simp [hget])
              rcases hsp2 : specHeadersAux (ci₁.data.length + 1) ci₁ false with _ | r2 | _
              · obtain ⟨hs', rest, v, hdone, hhost⟩ := hcorr.1 hsp2
                have hread : readRequest ci = .ok
                    { Method := (splitN3Space line).getD 0 "",
                      URL := (splitN3Space line).getD 1 "",
                      Proto := (splitN3Space line).getD 2 "",
                      Headers := hs', Host := v,
                      Close := match hget hs' "Connection" with
                        | some w => w == "close"
                        | none => false } rest := by
                  unfold readRequest; rw [hr]; dsimp only; rw [hparse]; dsimp only
                  rw [if_neg (by rw [hm]; simp), hu]; dsimp only
                  rw [if_neg (by simp [hc]), if_neg hv, hdone]; dsimp only
                  rw [hhost]
                have hinv := readRequest_ok_inv hread
                rw [hspec, hsp2]
                exact ⟨_, rest, hread, hinv.1, hinv.2.1, hinv.2.2.1, hinv.2.2.2.1⟩
              · rcases hcorr.2.2.2.1 r2 hsp2 with hr2 | hr2
                · obtain ⟨hs', rest, hdone, hnone⟩ := hcorr.2.1 (hr2 ▸ hsp2)
                  have hread : readRequest ci = .err false (.bad "400: Host Needed") rest := by
                    unfold readRequest; rw [hr]; dsimp only; rw [hparse]; dsimp only
                    rw [if_neg (by rw [hm]; simp), hu]; dsimp only
                    rw [if_neg (by simp [hc]), if_neg hv, hdone]; dsimp only
                    rw [hnone]
                  rw [hspec, hsp2]
                  exact Or.inl ⟨false, _, rest, hread⟩
                · obtain ⟨rest, herr⟩ := hcorr.2.2.1 (hr2 ▸ hsp2)
                  have hread : readRequest ci =
                      .err false (.bad "400: Invalid header") rest := by
                    unfold readRequest; rw [hr]; dsimp only; rw [hparse]; dsimp only
                    rw [if_neg (by rw [hm]; simp), hu]; dsimp only
                    rw [if_neg (by simp [hc]), if_neg hv, herr]
                  rw [hspec, hsp2]
                  exact Or.inl ⟨false, _, rest, hread⟩
              · obtain ⟨e, rest, herr, he⟩ := hcorr.2.2.2.2 hsp2
                have hread : readRequest ci = .err false e rest := by
                  unfold readRequest; rw [hr]; dsimp only; rw [hparse]; dsimp only
                  rw [if_neg (by rw [hm]; simp), hu]; dsimp only
                  rw [if_neg (by simp [hc]), if_neg hv, herr]
                rw [hspec, hsp2]
                exact ⟨false, e, rest, hread, he⟩
          · have hpfx : goHasPrefix ((splitN3Space line).getD 1 "") "/" = false := by
              rw [goHasPrefix_slash_cons hu]
              simpa using hc
            have hspec : specParse ci = .badReq .badTarget := by
              unfold specParse; rw [hr]; dsimp only
              rw [if_neg (by simp [hlen]), if_neg (by rw [hm]; simp), if_pos hpfx]
            have hread : readRequest ci = .err false (.bad "400: Invalid URL") ci₁ := by
              unfold readRequest; rw [hr]; dsimp only; rw [hparse]; dsimp only
              rw [if_neg (by rw [hm]; simp), hu]; dsimp only
              rw [if_pos hc]
            rw [hspec]
            exact Or.inl ⟨false, _, ci₁, hread⟩

/-- Claim C5 (amended): against the spec-side classifier `specParse`, which
checks exactly the claim's failure list in order (request line not
whitespace-splitting into three fields, unsupported method, target not
beginning with `/`, unsupported version, header line without colon, no Host
at the terminator), `readRequest` produces a complete `Request` satisfying
all invariants exactly when the classifier says `ok`, fails with a
`fmt.Errorf` BadRequest error exactly when the classifier reports a failure
reason — except that an empty target (three fields with empty second field,
`GET` method) makes the parser panic at `req.URL[0]` instead of reaching
the target check's BadRequest branch — and propagates the stream error when
the line source ends. -/
theorem c5_parser_characterization (ci : ConnInput) :
    (match specParse ci with
      | .ok => ∃ req rest, readRequest ci = .ok req rest ∧ req.Method = "GET" ∧
          goHasPrefix req.URL "/" = true ∧ req.Proto = "HTTP/1.1" ∧
          hget req.Headers "Host" = some req.Host
      | .badReq r =>
          (∃ nr msg rest, readRequest ci = .err nr (.bad msg) rest) ∨
          (r = .badTarget ∧ readRequest ci = .crash ∧
            ∃ line ci₁ p, readLineM ci = (.ok line, ci₁) ∧
              splitN3Space line = ["GET", "", p])
      | .streamEnd =>
          ∃ nr e rest, readRequest ci = .err nr e rest ∧ (e = .eof ∨ e = .timeout)) ∧
    (∀ nr msg rest, readRequest ci = .err nr (.bad msg) rest →
      ∃ r, specParse ci = .badReq r) ∧
    (readRequest ci = .crash → specParse ci = .badReq .badTarget) := by
  have hmain := c5_main ci
  refine ⟨hmain, ?_, ?_⟩
  · intro nr msg rest h
    rcases hsp : specParse ci with _ | r | _
    · rw [hsp] at hmain
      obtain ⟨req, rest', hok, -⟩ := hmain
      rw [h] at hok
      simp at hok
    · exact ⟨r, rfl⟩
    · rw [hsp] at hmain
      obtain ⟨nr', e, rest', herr, he⟩ := hmain
      rw [h] at herr
      injection herr with h1 h2 h3
      rcases he with rfl | rfl <;> simp at h2
  · intro h
    rcases hsp : specParse ci with _ | r | _
    · rw [hsp] at hmain
      obtain ⟨req, rest', hok, -⟩ := hmain
      rw [h] at hok
      simp at hok
    · rw [hsp] at hmain
      rcases hmain with ⟨nr, msg, rest, hbad⟩ | ⟨hrt, -, -⟩
      · rw [h] at hbad
        simp at hbad
      · rw [hrt]
    · rw [hsp] at hmain
      obtain ⟨nr, e, rest, herr, -⟩ := hmain
      rw [h] at herr
      simp at herr

/-- Claim C5, counterexample: on the request line `GET  X` the second of the
three whitespace-split fields is empty; the claim says the parser fails with
a BadRequest error (the target does not begin with `/`), and the spec-side
classifier indeed reports `badTarget`, but the code panics at `req.URL[0]`,
producing neither a complete Request nor a BadRequest error. -/
theorem c5_counterexample :
    readRequest ⟨("GET  X\r\n").toList, .eof⟩ = .crash ∧
    specParse ⟨("GET  X\r\n").toList, .eof⟩ = .badReq .badTarget := by
  refine ⟨by decide, by decide⟩

/-- Witness for C5: the characterization applied to a complete valid
request recovers the full `ok` contract. -/
theorem c5_witness :
    ∃ req rest, readRequest ⟨("GET /w HTTP/1.1\r\nHost: h\r\n\r\n").toList, .eof⟩ =
      .ok req rest ∧ req.Method = "GET" ∧ goHasPrefix req.URL "/" = true ∧
      req.Proto = "HTTP/1.1" ∧ hget req.Headers "Host" = some req.Host := by
  have h := (c5_parser_characterization ⟨("GET /w HTTP/1.1\r\nHost: h\r\n\r\n").toList, .eof⟩).1
  rw [show specParse ⟨("GET /w HTTP/1.1\r\nHost: h\r\n\r\n").toList, .eof⟩ = .ok from by decide]
    at h
  exact h

end TritonHTTP
